import Mathlib

/-!
# Crossword grid manager: embedding and verification

A shallow embedding of `src/C++Crossword10x10.cpp` (struct `WordInfo`, class
`Crossword`) and theorems about it.

Conventions of the embedding:

* `std::string` is `List Char`; `std::vector<std::vector<T>>` is `List (List T)`.
* `int` is `Int`.  The only arithmetic on `int` values is `currentWordNumber++`
  and the index sums `c + i`, `r + i`.  The sums are evaluated after the start
  guard (so `0 ≤ r < rows`, `0 ≤ c < cols`) and the loop leaves at the first
  index past the edge, so no sum ever exceeds `cols` or `rows` and the
  `size_t` arithmetic of the source never wraps.  The counter would overflow
  only after `2^31 - 1` recorded words, which is undefined behaviour in the
  source and outside this model.
* `operator[]` outside a vector is undefined behaviour in the source; here a
  read or write outside the grid yields `none`, and every operation that
  touches a grid returns an `Option`.
* Text written to `std::cerr` is returned as a list of `Diag` values, in
  emission order; text written to `std::cout` by the display methods is
  returned as the list of its lines.
-/

namespace CrosswordPuzzle

/-! ## Data model -/

/-- A two-dimensional vector, row-major (`std::vector<std::vector<T>>`). -/
abbrev Grid (α : Type) := List (List α)

/-- Element access `g[r][c]`; `none` where the source would index out of range
(the indices are `int`s converted to `size_t`, so a negative index is out of
range too). -/
def Grid.read {α : Type} (g : Grid α) (r c : Int) : Option α :=
  if 0 ≤ r ∧ 0 ≤ c then
    match g[r.toNat]? with
    | some cells => cells[c.toNat]?
    | none => none
  else none

/-- Assignment `g[r][c] = v`; `none` where the source would index out of range. -/
def Grid.write {α : Type} (g : Grid α) (r c : Int) (v : α) : Option (Grid α) :=
  if 0 ≤ r ∧ 0 ≤ c then
    match g[r.toNat]? with
    | some cells =>
      if c.toNat < cells.length then some (g.set r.toNat (cells.set c.toNat v)) else none
    | none => none
  else none

/-- The source's `struct WordInfo`. -/
structure WordInfo where
  word : List Char
  clue : List Char
  row : Int
  col : Int
  direction : Char
  number : Int
  deriving DecidableEq, Repr

/-- A line written to `std::cerr` by `addWord`. -/
inductive Diag where
  /-- Line 33: the starting position is out of bounds. -/
  | startOutOfBounds (w : List Char) (r c : Int)
  /-- Lines 45 and 58: the cell holds another non-blocked character. -/
  | conflict (w : List Char) (r c : Int) (existing : Char)
  /-- Line 51: an Across word runs past the last column. -/
  | acrossOutOfBounds (w : List Char)
  /-- Line 64: a Down word runs past the last row. -/
  | downOutOfBounds (w : List Char)
  deriving DecidableEq, Repr

/-- The data members of the source's `class Crossword`. -/
structure Crossword where
  rows : Int
  cols : Int
  solutionGrid : Grid Char
  playerGrid : Grid Char
  numberedPlayerGrid : Grid (List Char)
  words : List WordInfo
  currentWordNumber : Int
  deriving DecidableEq, Repr

/-! ## Operations -/

/-- The constructor `Crossword(int r, int c)` (lines 19-28).  A negative
dimension converts to a `size_t` beyond `max_size()`, so `resize` (or the
construction of the row prototype) throws and no object exists: `none`. -/
def Crossword.construct (r c : Int) : Option Crossword :=
  if r < 0 ∨ c < 0 then none
  else some
    { rows := r
      cols := c
      solutionGrid := List.replicate r.toNat (List.replicate c.toNat '#')
      playerGrid := List.replicate r.toNat (List.replicate c.toNat '#')
      numberedPlayerGrid := List.replicate r.toNat (List.replicate c.toNat ['#', '#', '#'])
      words := []
      currentWordNumber := 0 }

/-- The letter loop of `addWord` (lines 40-68), entered at index `i` with the
letters `w[i], w[i+1], ...` still to place.  Returns the two grids and the
diagnostics written from index `i` on. -/
def addWordLoop (rows cols : Int) (w : List Char) (r c : Int) (dir : Char) :
    List Char → Nat → Grid Char → Grid Char → Option (Grid Char × Grid Char × List Diag)
  | [], _, sol, player => some (sol, player, [])
  | ch :: rest, i, sol, player =>
    if dir = 'A' then
      if c + (i : Int) < cols then do
        let old ← sol.read r (c + i)
        let sol1 ← sol.write r (c + i) ch
        let player1 ← player.write r (c + i) '_'
        let out ← addWordLoop rows cols w r c dir rest (i + 1) sol1 player1
        pure (out.1, out.2.1,
          (if old ≠ '#' ∧ old ≠ ch then [Diag.conflict w r (c + i) old] else []) ++ out.2.2)
      else some (sol, player, [Diag.acrossOutOfBounds w])
    else
      if r + (i : Int) < rows then do
        let old ← sol.read (r + i) c
        let sol1 ← sol.write (r + i) c ch
        let player1 ← player.write (r + i) c '_'
        let out ← addWordLoop rows cols w r c dir rest (i + 1) sol1 player1
        pure (out.1, out.2.1,
          (if old ≠ '#' ∧ old ≠ ch then [Diag.conflict w (r + i) c old] else []) ++ out.2.2)
      else some (sol, player, [Diag.downOutOfBounds w])

/-- The method `Crossword::addWord` (lines 31-69): the new state and the
diagnostics it wrote. -/
def Crossword.addWord (s : Crossword) (w cl : List Char) (r c : Int) (dir : Char) :
    Option (Crossword × List Diag) :=
  if r ≥ s.rows ∨ c ≥ s.cols ∨ r < 0 ∨ c < 0 then
    some (s, [Diag.startOutOfBounds w r c])
  else do
    let number := s.currentWordNumber + 1
    let entry : WordInfo :=
      { word := w, clue := cl, row := r, col := c, direction := dir, number := number }
    let out ← addWordLoop s.rows s.cols w r c dir w 0 s.solutionGrid s.playerGrid
    pure ({ s with
            currentWordNumber := number
            words := s.words ++ [entry]
            solutionGrid := out.1
            playerGrid := out.2.1 }, out.2.2)

/-- The library function `std::to_string(int)`: decimal digits, with a leading
minus sign for a negative number. -/
def to_string : Int → List Char
  | Int.ofNat m => Nat.toDigits 10 m
  | Int.negSucc m => '-' :: Nat.toDigits 10 (m + 1)

/-- The three-character cell text of a word number (lines 87 and 93-99). -/
def numberLabel (number : Int) : List Char :=
  let numStr := to_string number
  if numStr.length = 1 then [' '] ++ numStr ++ [' ']
  else if numStr.length = 2 then numStr ++ [' ']
  else numStr.take 3

/-- The inner loop of the first pass of `preparePlayerGridWithNumbers`
(lines 75-81) for row `i`, over the columns `js`. -/
def prepareCells (player : Grid Char) (i : Int) :
    List Nat → Grid (List Char) → Option (Grid (List Char))
  | [], numbered => some numbered
  | j :: js, numbered => do
    let p ← player.read i j
    let numbered1 ←
      if p = '#' then numbered.write i j ['#', '#', '#']
      else numbered.write i j [' ', '_', ' ']
    prepareCells player i js numbered1

/-- The outer loop of the first pass (lines 74-82), over the rows `is`. -/
def prepareRows (player : Grid Char) (cols : Int) :
    List Nat → Grid (List Char) → Option (Grid (List Char))
  | [], numbered => some numbered
  | i :: is, numbered => do
    let numbered1 ← prepareCells player i (List.range cols.toNat) numbered
    prepareRows player cols is numbered1

/-- The second pass (lines 85-102): the loop over the word list. -/
def prepareNumbers (rows cols : Int) (player : Grid Char) :
    List WordInfo → Grid (List Char) → Option (Grid (List Char))
  | [], numbered => some numbered
  | wordInfo :: rest, numbered =>
    if wordInfo.row < rows ∧ wordInfo.col < cols then do
      let p ← player.read wordInfo.row wordInfo.col
      if p = '_' then do
        let numbered1 ← numbered.write wordInfo.row wordInfo.col (numberLabel wordInfo.number)
        prepareNumbers rows cols player rest numbered1
      else prepareNumbers rows cols player rest numbered
    else prepareNumbers rows cols player rest numbered

/-- The method `Crossword::preparePlayerGridWithNumbers` (lines 72-103). -/
def Crossword.preparePlayerGridWithNumbers (s : Crossword) : Option Crossword := do
  let numbered1 ← prepareRows s.playerGrid s.cols (List.range s.rows.toNat) s.numberedPlayerGrid
  let numbered2 ← prepareNumbers s.rows s.cols s.playerGrid s.words numbered1
  pure { s with numberedPlayerGrid := numbered2 }

/-- The manipulator `std::setw(n)` applied to the next insertion, whose text is
`text`: right-aligned in `n` columns, filled with blanks, never truncated. -/
def setw (n : Nat) (text : List Char) : List Char :=
  List.replicate (n - text.length) ' ' ++ text

/-- The cells of row `i` of the numbered grid, printed one after the other
(lines 122-124), over the columns `js`. -/
def displayCells (numbered : Grid (List Char)) (i : Int) : List Nat → Option (List Char)
  | [] => some []
  | j :: js => do
    let cell ← numbered.read i j
    let rest ← displayCells numbered i js
    pure (cell ++ rest)

/-- The lines printed by the row loop of `displayPlayerGridWithNumbers`
(lines 120-126), over the rows `is`: the row index in two columns, a bar, and
the cells of the row. -/
def displayRows (numbered : Grid (List Char)) (cols : Int) :
    List Nat → Option (List (List Char))
  | [] => some []
  | i :: is => do
    let cells ← displayCells numbered i (List.range cols.toNat)
    let rest ← displayRows numbered cols is
    pure ((setw 2 (to_string i) ++ ['|'] ++ cells) :: rest)

/-- The method `Crossword::displayPlayerGridWithNumbers` (lines 106-128): the
lines it writes to `std::cout`. -/
def Crossword.displayPlayerGridWithNumbers (s : Crossword) : Option (List (List Char)) := do
  let body ← displayRows s.numberedPlayerGrid s.cols (List.range s.rows.toNat)
  pure (["Crossword Puzzle (10x10):".toList,
         "   ".toList ++ (List.range s.cols.toNat).flatMap (fun j => setw 3 (to_string j)),
         "   ".toList ++ (List.range s.cols.toNat).flatMap (fun _ => "---".toList)]
        ++ body ++ [[]])

/-- One clue line (lines 164-165 and 173-174): the number in two columns, the
clue, and the letter count. -/
def clueLine (word : WordInfo) : List Char :=
  setw 2 (to_string word.number) ++ ". ".toList ++ word.clue ++ " (".toList ++
    Nat.toDigits 10 word.word.length ++ " letters)".toList

/-- The loop over the word list of `displayClues` that prints the entries whose
direction is `dir` (lines 162-167 with `'A'`, lines 171-176 with `'D'`). -/
def clueLines (dir : Char) : List WordInfo → List (List Char)
  | [] => []
  | word :: rest =>
    if word.direction = dir then clueLine word :: clueLines dir rest
    else clueLines dir rest

/-- The method `Crossword::displayClues` (lines 157-178): the lines it writes
to `std::cout`. -/
def Crossword.displayClues (s : Crossword) : List (List Char) :=
  ["Clues:".toList, "------".toList, "Across:".toList] ++ clueLines 'A' s.words ++
    [[], "Down:".toList] ++ clueLines 'D' s.words ++ [[]]

/-! ## Vocabulary of the statements -/

/-- A grid has `rows` rows of `cols` cells each. -/
def Grid.HasDims {α : Type} (g : Grid α) (rows cols : Int) : Prop :=
  (g.length : Int) = rows ∧ ∀ cells ∈ g, (cells.length : Int) = cols

instance {α : Type} (g : Grid α) (rows cols : Int) : Decidable (g.HasDims rows cols) := by
  unfold Grid.HasDims; infer_instance

/-- Position `(a, b)` lies inside a `rows × cols` grid. -/
def InGrid (rows cols a b : Int) : Prop := 0 ≤ a ∧ a < rows ∧ 0 ≤ b ∧ b < cols

instance (rows cols a b : Int) : Decidable (InGrid rows cols a b) := by
  unfold InGrid; infer_instance

/-- The cell that letter `i` of a word placed at `(r, c)` goes to: column
`c + i` of row `r` for `'A'`, row `r + i` of column `c` otherwise (lines 41-66). -/
def cellOf (r c : Int) (dir : Char) (i : Nat) : Int × Int :=
  if dir = 'A' then (r, c + i) else (r + i, c)

/-- The diagnostic for a word that runs off the grid (lines 51 and 64). -/
def overflowDiag (w : List Char) (dir : Char) : Diag :=
  if dir = 'A' then Diag.acrossOutOfBounds w else Diag.downOutOfBounds w

/-- A conflict report. -/
def Diag.isConflict : Diag → Bool
  | Diag.conflict _ _ _ _ => true
  | _ => false

/-- An out-of-bounds report, for the start or for a later letter. -/
def Diag.isOutOfBounds : Diag → Bool
  | Diag.conflict _ _ _ _ => false
  | _ => true

/-- The cell `p` of the grid holds a character that is neither the blocked
marker nor `ch`. -/
def clash (sol : Grid Char) (p : Int × Int) (ch : Char) : Bool :=
  match sol.read p.1 p.2 with
  | some old => old != '#' && old != ch
  | none => false

/-- The three grids have the dimensions recorded in `rows` and `cols` (what the
constructor establishes). -/
def Crossword.GridsOk (s : Crossword) : Prop :=
  s.solutionGrid.HasDims s.rows s.cols ∧ s.playerGrid.HasDims s.rows s.cols ∧
    s.numberedPlayerGrid.HasDims s.rows s.cols

instance (s : Crossword) : Decidable s.GridsOk := by
  unfold Crossword.GridsOk; infer_instance

/-- The state after `Crossword game(10, 10);` (line 191). -/
def game0 : Crossword :=
  { rows := 10
    cols := 10
    solutionGrid := List.replicate 10 (List.replicate 10 '#')
    playerGrid := List.replicate 10 (List.replicate 10 '#')
    numberedPlayerGrid := List.replicate 10 (List.replicate 10 ['#', '#', '#'])
    words := []
    currentWordNumber := 0 }

/-- The number of letters that fit between the start `(r, c)` and the edge of
the grid in direction `dir`. -/
def Crossword.room (s : Crossword) (r c : Int) (dir : Char) : Nat :=
  (if dir = 'A' then s.cols - c else s.rows - r).toNat

/-- The 10x10 state after `addWord("API", ..., 0, 5, 'D')` on the fresh grid. -/
def gameApi : Crossword :=
  { rows := 10
    cols := 10
    solutionGrid :=
      ["#####A####".toList, "#####P####".toList, "#####I####".toList] ++
        List.replicate 7 (List.replicate 10 '#')
    playerGrid :=
      ["#####_####".toList, "#####_####".toList, "#####_####".toList] ++
        List.replicate 7 (List.replicate 10 '#')
    numberedPlayerGrid := List.replicate 10 (List.replicate 10 ['#', '#', '#'])
    words := [{ word := "API".toList, clue := "Interface for software interaction".toList,
                row := 0, col := 5, direction := 'D', number := 1 }]
    currentWordNumber := 1 }

/-- The display text the first pass gives a cell whose player-grid character is
`p` (lines 76-80). -/
def blankCell (p : Char) : List Char :=
  if p = '#' then ['#', '#', '#'] else [' ', '_', ' ']

/-- The word recorded last among the words of the list that start at `(a, b)`. -/
def lastStartingAt : List WordInfo → Int → Int → Option WordInfo
  | [], _, _ => none
  | e :: rest, a, b =>
    match lastStartingAt rest a b with
    | some e1 => some e1
    | none => if e.row = a ∧ e.col = b then some e else none

/-- Every recorded word starts inside the grid. -/
def Crossword.WordsOk (s : Crossword) : Prop :=
  ∀ e ∈ s.words, InGrid s.rows s.cols e.row e.col

instance (s : Crossword) : Decidable s.WordsOk := by
  unfold Crossword.WordsOk; infer_instance

/-- The grids have the recorded dimensions and every recorded word starts
inside the grid. -/
def Crossword.WellFormed (s : Crossword) : Prop := s.GridsOk ∧ s.WordsOk

instance (s : Crossword) : Decidable s.WellFormed := by
  unfold Crossword.WellFormed; infer_instance

/-- The display text of a cell after both passes: `p` is the player-grid
character of the cell and `last` the word recorded last among those starting
there. -/
def expectedCell (p : Char) (last : Option WordInfo) : List Char :=
  match last with
  | some e => if p = '_' then numberLabel e.number else blankCell p
  | none => blankCell p

/-- The label as the specification words it, for a number `n ≥ 0`: one digit
between two blanks, two digits and a blank, or the first three decimal digits. -/
def specLabel (n : Nat) : List Char :=
  if n < 10 then [' ', Nat.digitChar n, ' ']
  else if n < 100 then [Nat.digitChar (n / 10), Nat.digitChar (n % 10), ' ']
  else (Nat.toDigits 10 n).take 3

/-- A call of one of the two mutating methods of the class. -/
inductive Op where
  /-- The call `addWord(w, cl, r, c, dir)`. -/
  | add (w cl : List Char) (r c : Int) (dir : Char)
  /-- The call `preparePlayerGridWithNumbers()`. -/
  | prepare
  deriving DecidableEq, Repr

/-- One call on a state: the new state and the diagnostics written. -/
def Crossword.step (s : Crossword) : Op → Option (Crossword × List Diag)
  | Op.add w cl r c dir => s.addWord w cl r c dir
  | Op.prepare => s.preparePlayerGridWithNumbers.map (fun s1 => (s1, []))

/-- A sequence of calls, in order: the final state and all diagnostics. -/
def Crossword.run : Crossword → List Op → Option (Crossword × List Diag)
  | s, [] => some (s, [])
  | s, op :: ops => do
    let out1 ← s.step op
    let out2 ← out1.1.run ops
    pure (out2.1, out1.2 ++ out2.2)

/-- The arguments a recorded word was placed with. -/
def WordInfo.args (e : WordInfo) : List Char × List Char × Int × Int × Char :=
  (e.word, e.clue, e.row, e.col, e.direction)

/-- The arguments of the placements of a call sequence whose start lies inside
a `rows × cols` grid, in call order. -/
def recordedCalls (rows cols : Int) : List Op → List (List Char × List Char × Int × Int × Char)
  | [] => []
  | Op.add w cl r c dir :: ops =>
    if InGrid rows cols r c then (w, cl, r, c, dir) :: recordedCalls rows cols ops
    else recordedCalls rows cols ops
  | Op.prepare :: ops => recordedCalls rows cols ops

/-- The entries carry the numbers 1, 2, ... in list order and the counter is
the length of the list. -/
def Crossword.Numbered (s : Crossword) : Prop :=
  s.currentWordNumber = (s.words.length : Int) ∧
    ∀ (i : Nat) (h : i < s.words.length), (s.words[i]).number = (i : Int) + 1

/-- The calls of `main` on the puzzle object before anything is displayed
(lines 197-215): the eight placements and the numbering pass. -/
def mainCalls : List Op :=
  [Op.add "CPU".toList "Central Processing Unit".toList 1 1 'A',
   Op.add "RAM".toList "Volatile memory".toList 3 1 'A',
   Op.add "API".toList "Interface for software interaction".toList 0 5 'D',
   Op.add "BUG".toList "An error in code".toList 5 3 'A',
   Op.add "GIT".toList "Version control system".toList 3 7 'D',
   Op.add "LINKER".toList "Combines object files".toList 0 8 'D',
   Op.add "CODE".toList "Set of program instructions".toList 7 0 'A',
   Op.add "NULL".toList "Represents no value or address".toList 7 5 'A',
   Op.prepare]

/-- A sample call sequence: `"API"` Down at `(0, 5)`, a placement that starts
in row 10 (outside the 10x10 grid), the numbering pass, and `"XYZ"` Across at
`(0, 5)`. -/
def sampleCalls : List Op :=
  [Op.add "API".toList [] 0 5 'D', Op.add "CPU".toList [] 10 0 'A', Op.prepare,
   Op.add "XYZ".toList [] 0 5 'A']

/-- The 10x10 state after `"API"` Down at `(0, 5)`, the numbering pass, and
`"XYZ"` Across at `(0, 5)`: the display grid still shows word 1 at `(0, 5)`. -/
def gameTwoStarts : Crossword :=
  { rows := 10
    cols := 10
    solutionGrid :=
      ["#####XYZ##".toList, "#####P####".toList, "#####I####".toList] ++
        List.replicate 7 (List.replicate 10 '#')
    playerGrid :=
      ["#####___##".toList, "#####_####".toList, "#####_####".toList] ++
        List.replicate 7 (List.replicate 10 '#')
    numberedPlayerGrid :=
      [List.replicate 5 "###".toList ++ [" 1 ".toList] ++ List.replicate 4 "###".toList,
       List.replicate 5 "###".toList ++ [" _ ".toList] ++ List.replicate 4 "###".toList,
       List.replicate 5 "###".toList ++ [" _ ".toList] ++ List.replicate 4 "###".toList] ++
        List.replicate 7 (List.replicate 10 "###".toList)
    words := [{ word := "API".toList, clue := [], row := 0, col := 5, direction := 'D',
                number := 1 },
              { word := "XYZ".toList, clue := [], row := 0, col := 5, direction := 'A',
                number := 2 }]
    currentWordNumber := 2 }

/-- The call places no word that contains the blocked marker `'#'`
(`preparePlayerGridWithNumbers` places nothing). -/
def Op.avoidsMarker : Op → Bool
  | Op.add w _ _ _ _ => decide ('#' ∉ w)
  | Op.prepare => true

/-- In every cell, the solution grid holds a character other than `'#'` exactly
when the player grid holds `'_'`, and the player grid holds `'#'` or `'_'`. -/
def Crossword.LettersMatch (s : Crossword) : Prop :=
  ∀ a b ch p, s.solutionGrid.read a b = some ch → s.playerGrid.read a b = some p →
    (ch ≠ '#' ↔ p = '_') ∧ (p = '#' ∨ p = '_')

/-- Every display cell is the blocked text, the blank text, or the label of a
recorded word's number. -/
def Crossword.CellsAreLabels (s : Crossword) : Prop :=
  ∀ a b cell, s.numberedPlayerGrid.read a b = some cell →
    cell = ['#', '#', '#'] ∨ cell = [' ', '_', ' '] ∨
      ∃ e ∈ s.words, cell = numberLabel e.number

/-- A player cell is fillable exactly when a recorded word covers it, and holds
nothing but `'_'` and `'#'`. -/
def Crossword.FillableIsSpan (s : Crossword) : Prop :=
  ∀ a b p, s.playerGrid.read a b = some p →
    (p = '_' ↔ ∃ e ∈ s.words, ∃ i, i < e.word.length ∧
      cellOf e.row e.col e.direction i = (a, b)) ∧ (p = '_' ∨ p = '#')

/-- The cells a placement's letters go to, in letter order; none for the
numbering pass. -/
def Op.cells : Op → List (Int × Int)
  | Op.add w _ r c dir => (List.range w.length).map (cellOf r c dir)
  | Op.prepare => []

/-! ## Grid lemmas and the letter loop -/

theorem Grid.read_eq_some_of_inGrid {α : Type} {g : Grid α} {rows cols a b : Int}
    (hd : g.HasDims rows cols) (hin : InGrid rows cols a b) : ∃ v, g.read a b = some v := by
  obtain ⟨hlen, hrow⟩ := hd
  obtain ⟨ha0, ha1, hb0, hb1⟩ := hin
  have h1 : a.toNat < g.length := by omega
  have h2 : (g[a.toNat]).length = cols.toNat := by
    have := hrow _ (List.getElem_mem h1)
    omega
  have h3 : b.toNat < (g[a.toNat]).length := by omega
  refine ⟨(g[a.toNat])[b.toNat], ?_⟩
  simp [Grid.read, ha0, hb0, List.getElem?_eq_getElem h1, List.getElem?_eq_getElem h3]

theorem Grid.inGrid_of_read_eq_some {α : Type} {g : Grid α} {rows cols a b : Int} {v : α}
    (hd : g.HasDims rows cols) (h : g.read a b = some v) : InGrid rows cols a b := by
  obtain ⟨hlen, hrow⟩ := hd
  unfold Grid.read at h
  split at h
  · rename_i hab
    split at h
    · rename_i cells hc
      rw [List.getElem?_eq_some_iff] at hc h
      obtain ⟨h1, rfl⟩ := hc
      obtain ⟨h3, -⟩ := h
      have := hrow _ (List.getElem_mem h1)
      refine ⟨hab.1, by omega, hab.2, by omega⟩
    · cases h
  · cases h

theorem Grid.read_eq_none_of_not_inGrid {α : Type} {g : Grid α} {rows cols a b : Int}
    (hd : g.HasDims rows cols) (hin : ¬ InGrid rows cols a b) : g.read a b = none := by
  cases h : g.read a b with
  | none => rfl
  | some v => exact absurd (Grid.inGrid_of_read_eq_some hd h) hin

/-- What a successful write does, cell by cell. -/
theorem Grid.read_of_write {α : Type} {g g1 : Grid α} {a b : Int} {v : α}
    (h : g.write a b v = some g1) (x y : Int) :
    g1.read x y = if x = a ∧ y = b then some v else g.read x y := by
  unfold Grid.write at h
  split at h
  · rename_i hab
    split at h
    · rename_i cells hc
      split at h
      · rename_i hlt
        cases h
        rw [List.getElem?_eq_some_iff] at hc
        obtain ⟨h1, rfl⟩ := hc
        unfold Grid.read
        by_cases hxy : 0 ≤ x ∧ 0 ≤ y
        · simp only [hxy, and_self, if_true]
          by_cases hx : x = a
          · subst hx
            simp only [List.getElem?_set_self h1, true_and]
            by_cases hy : y = b
            · subst hy
              simp [List.getElem?_set_self hlt]
            · have : b.toNat ≠ y.toNat := by omega
              simp [hy, List.getElem?_set_ne this, List.getElem?_eq_getElem h1]
          · have : a.toNat ≠ x.toNat := by omega
            simp [hx, List.getElem?_set_ne this]
        · have : ¬ (x = a ∧ y = b) := by
            rintro ⟨rfl, rfl⟩; exact hxy hab
          simp [hxy, this]
      · cases h
    · cases h
  · cases h

theorem Grid.hasDims_of_write {α : Type} {g g1 : Grid α} {a b rows cols : Int} {v : α}
    (h : g.write a b v = some g1) (hd : g.HasDims rows cols) : g1.HasDims rows cols := by
  obtain ⟨hlen, hrow⟩ := hd
  unfold Grid.write at h
  split at h
  · split at h
    · rename_i cells hc
      split at h
      · cases h
        rw [List.getElem?_eq_some_iff] at hc
        obtain ⟨h1, rfl⟩ := hc
        refine ⟨by simpa using hlen, ?_⟩
        intro cells hmem
        rcases List.mem_or_eq_of_mem_set hmem with hm | rfl
        · exact hrow _ hm
        · simpa using hrow _ (List.getElem_mem h1)
      · cases h
    · cases h
  · cases h

theorem Grid.write_eq_some_of_inGrid {α : Type} {g : Grid α} {rows cols a b : Int}
    (hd : g.HasDims rows cols) (hin : InGrid rows cols a b) (v : α) :
    ∃ g1, g.write a b v = some g1 := by
  obtain ⟨hlen, hrow⟩ := hd
  obtain ⟨ha0, ha1, hb0, hb1⟩ := hin
  have h1 : a.toNat < g.length := by omega
  have h2 := hrow _ (List.getElem_mem h1)
  have h3 : b.toNat < (g[a.toNat]).length := by omega
  refine ⟨g.set a.toNat ((g[a.toNat]).set b.toNat v), ?_⟩
  simp [Grid.write, ha0, hb0, List.getElem?_eq_getElem h1, h3]

/-- Two grids of the same dimensions with the same cells are equal. -/
theorem Grid.ext_read {α : Type} {g g1 : Grid α} {rows cols : Int}
    (hd : g.HasDims rows cols) (hd1 : g1.HasDims rows cols)
    (h : ∀ a b, InGrid rows cols a b → g.read a b = g1.read a b) : g = g1 := by
  obtain ⟨hlen, hrow⟩ := hd
  obtain ⟨hlen1, hrow1⟩ := hd1
  apply List.ext_getElem (by omega)
  intro i hi hi1
  have e := hrow _ (List.getElem_mem hi)
  have e1 := hrow1 _ (List.getElem_mem hi1)
  apply List.ext_getElem (by omega)
  intro j hj hj1
  have := h i j ⟨by omega, by omega, by omega, by omega⟩
  simpa [Grid.read, List.getElem?_eq_getElem hi, List.getElem?_eq_getElem hi1,
    List.getElem?_eq_getElem hj, List.getElem?_eq_getElem hj1] using this

theorem cellOf_inj {r c : Int} {dir : Char} {i j : Nat}
    (h : cellOf r c dir i = cellOf r c dir j) : i = j := by
  unfold cellOf at h
  split at h <;> simp at h <;> omega

theorem inGrid_cellOf_iff {rows cols r c : Int} (dir : Char) (i : Nat)
    (hr : 0 ≤ r ∧ r < rows) (hc : 0 ≤ c ∧ c < cols) :
    InGrid rows cols (cellOf r c dir i).1 (cellOf r c dir i).2 ↔
      (if dir = 'A' then c + (i : Int) < cols else r + (i : Int) < rows) := by
  unfold cellOf InGrid
  split <;> simp <;> omega

theorem inGrid_cellOf_mono {rows cols r c : Int} (dir : Char) {i j : Nat} (hij : i ≤ j)
    (hr : 0 ≤ r ∧ r < rows) (hc : 0 ≤ c ∧ c < cols)
    (h : InGrid rows cols (cellOf r c dir j).1 (cellOf r c dir j).2) :
    InGrid rows cols (cellOf r c dir i).1 (cellOf r c dir i).2 := by
  rw [inGrid_cellOf_iff dir _ hr hc] at h ⊢
  split at h <;> simp_all <;> omega

/-- One iteration of the letter loop, with both directions folded into `cellOf`. -/
theorem addWordLoop_cons (rows cols : Int) (w : List Char) (r c : Int) (dir : Char)
    (ch : Char) (rest : List Char) (i : Nat) (sol player : Grid Char) :
    addWordLoop rows cols w r c dir (ch :: rest) i sol player =
      if (if dir = 'A' then c + (i : Int) < cols else r + (i : Int) < rows) then
        (sol.read (cellOf r c dir i).1 (cellOf r c dir i).2).bind fun old =>
        (sol.write (cellOf r c dir i).1 (cellOf r c dir i).2 ch).bind fun sol1 =>
        (player.write (cellOf r c dir i).1 (cellOf r c dir i).2 '_').bind fun player1 =>
        (addWordLoop rows cols w r c dir rest (i + 1) sol1 player1).bind fun out =>
        some (out.1, out.2.1,
          (if old ≠ '#' ∧ old ≠ ch then
            [Diag.conflict w (cellOf r c dir i).1 (cellOf r c dir i).2 old] else []) ++ out.2.2)
      else some (sol, player, [overflowDiag w dir]) := by
  by_cases hd : dir = 'A'
  · simp only [addWordLoop, cellOf, overflowDiag, hd, if_true]
    rfl
  · simp only [addWordLoop, cellOf, overflowDiag, hd, if_false]
    rfl

/-- The letter loop on a well-dimensioned grid, from an in-bounds start: it
returns, and what it returns. -/
theorem addWordLoop_spec (rows cols : Int) (w : List Char) (r c : Int) (dir : Char)
    (hr : 0 ≤ r ∧ r < rows) (hc : 0 ≤ c ∧ c < cols) :
    ∀ (rest : List Char) (i : Nat) (sol player : Grid Char),
      sol.HasDims rows cols → player.HasDims rows cols →
      ∃ sol1 player1 ds,
        addWordLoop rows cols w r c dir rest i sol player = some (sol1, player1, ds) ∧
        sol1.HasDims rows cols ∧ player1.HasDims rows cols ∧
        (∀ j ch, rest[j]? = some ch →
          InGrid rows cols (cellOf r c dir (i + j)).1 (cellOf r c dir (i + j)).2 →
          sol1.read (cellOf r c dir (i + j)).1 (cellOf r c dir (i + j)).2 = some ch ∧
          player1.read (cellOf r c dir (i + j)).1 (cellOf r c dir (i + j)).2 = some '_') ∧
        (∀ a b,
          (∀ j, j < rest.length →
            InGrid rows cols (cellOf r c dir (i + j)).1 (cellOf r c dir (i + j)).2 →
            cellOf r c dir (i + j) ≠ (a, b)) →
          sol1.read a b = sol.read a b ∧ player1.read a b = player.read a b) ∧
        ds.countP Diag.isConflict =
          (List.enumFrom i rest).countP (fun p => clash sol (cellOf r c dir p.1) p.2) ∧
        ((∀ j, j < rest.length →
            InGrid rows cols (cellOf r c dir (i + j)).1 (cellOf r c dir (i + j)).2) →
          ds.filter Diag.isOutOfBounds = []) ∧
        ((∃ j, j < rest.length ∧
            ¬ InGrid rows cols (cellOf r c dir (i + j)).1 (cellOf r c dir (i + j)).2) →
          ds.filter Diag.isOutOfBounds = [overflowDiag w dir]) := by
  intro rest
  induction rest with
  | nil =>
    intro i sol player hs hp
    refine ⟨sol, player, [], rfl, hs, hp, ?_, ?_, ?_, ?_, ?_⟩
    · intro j ch h; simp at h
    · intro a b _; exact ⟨rfl, rfl⟩
    · simp
    · intro _; rfl
    · rintro ⟨j, hj, _⟩; simp at hj
  | cons ch rest ih =>
    intro i sol player hs hp
    rw [addWordLoop_cons]
    by_cases hstep : (if dir = 'A' then c + (i : Int) < cols else r + (i : Int) < rows)
    · have hin : InGrid rows cols (cellOf r c dir i).1 (cellOf r c dir i).2 :=
        (inGrid_cellOf_iff dir i hr hc).2 hstep
      obtain ⟨old, hold⟩ := Grid.read_eq_some_of_inGrid hs hin
      obtain ⟨sol0, hsol0⟩ := Grid.write_eq_some_of_inGrid hs hin ch
      obtain ⟨pl0, hpl0⟩ := Grid.write_eq_some_of_inGrid hp hin '_'
      have hs0 := Grid.hasDims_of_write hsol0 hs
      have hp0 := Grid.hasDims_of_write hpl0 hp
      obtain ⟨sol1, pl1, ds, hloop, hs1, hp1, hP1, hP2, hP3, hP4, hP5⟩ :=
        ih (i + 1) sol0 pl0 hs0 hp0
      refine ⟨sol1, pl1, (if old ≠ '#' ∧ old ≠ ch then
          [Diag.conflict w (cellOf r c dir i).1 (cellOf r c dir i).2 old] else []) ++ ds,
        ?_, hs1, hp1, ?_, ?_, ?_, ?_, ?_⟩
      · simp only [hstep, if_true, hold, hsol0, hpl0, hloop, Option.bind_some, Option.some_bind]
      · intro j ch1 hj hjin
        cases j with
        | zero =>
          simp at hj
          subst hj
          have hne : ∀ j, j < rest.length →
              InGrid rows cols (cellOf r c dir (i + 1 + j)).1 (cellOf r c dir (i + 1 + j)).2 →
              cellOf r c dir (i + 1 + j) ≠ ((cellOf r c dir i).1, (cellOf r c dir i).2) := by
            intro j _ _ he
            have := cellOf_inj he
            omega
          obtain ⟨e1, e2⟩ := hP2 _ _ hne
          rw [Nat.add_zero, e1, e2, Grid.read_of_write hsol0, Grid.read_of_write hpl0]
          simp
        | succ j =>
          have hj1 : rest[j]? = some ch1 := by simpa using hj
          have e : i + (j + 1) = i + 1 + j := by omega
          rw [e] at hjin ⊢
          exact hP1 j ch1 hj1 hjin
      · intro a b hab
        have hne : ∀ j, j < rest.length →
            InGrid rows cols (cellOf r c dir (i + 1 + j)).1 (cellOf r c dir (i + 1 + j)).2 →
            cellOf r c dir (i + 1 + j) ≠ (a, b) := by
          intro j hj hjin
          have e : i + (j + 1) = i + 1 + j := by omega
          have := hab (j + 1) (by simp; omega) (by rw [e]; exact hjin)
          rwa [e] at this
        obtain ⟨e1, e2⟩ := hP2 a b hne
        have h0 : ¬ (a = (cellOf r c dir i).1 ∧ b = (cellOf r c dir i).2) := by
          rintro ⟨rfl, rfl⟩
          exact hab 0 (by simp) (by simpa using hin) (by simp)
        rw [e1, e2, Grid.read_of_write hsol0, Grid.read_of_write hpl0]
        simp [h0]
      · rw [List.countP_append, hP3, List.enumFrom_cons, List.countP_cons]
        have hsame : ∀ p ∈ List.enumFrom (i + 1) rest,
            clash sol0 (cellOf r c dir p.1) p.2 = clash sol (cellOf r c dir p.1) p.2 := by
          intro p hp
          have hlt : i + 1 ≤ p.1 := List.le_fst_of_mem_enumFrom hp
          have hne : ¬ ((cellOf r c dir p.1).1 = (cellOf r c dir i).1 ∧
              (cellOf r c dir p.1).2 = (cellOf r c dir i).2) := by
            rintro ⟨h1, h2⟩
            have := @cellOf_inj r c dir p.1 i (Prod.ext h1 h2)
            omega
          simp only [clash, Grid.read_of_write hsol0, hne, if_false]
        have hcong : List.countP (fun p => clash sol0 (cellOf r c dir p.1) p.2)
              (List.enumFrom (i + 1) rest) =
            List.countP (fun p => clash sol (cellOf r c dir p.1) p.2)
              (List.enumFrom (i + 1) rest) :=
          List.countP_congr (fun p hp => by rw [hsame p hp])
        rw [hcong, Nat.add_comm]
        congr 1
        by_cases hcl : old ≠ '#' ∧ old ≠ ch
        · simp [clash, hold, hcl, Diag.isConflict]
        · have : ¬ ((old != '#' && old != ch) = true) := by simpa using hcl
          simp [clash, hold, hcl, this]
      · intro hall
        rw [List.filter_append, hP4 ?_]
        · by_cases hcl : old ≠ '#' ∧ old ≠ ch <;> simp [hcl, Diag.isOutOfBounds]
        · intro j hj
          have e : i + (j + 1) = i + 1 + j := by omega
          have := hall (j + 1) (by simp; omega)
          rwa [e] at this
      · rintro ⟨j, hj, hjout⟩
        rw [List.filter_append, hP5 ?_]
        · by_cases hcl : old ≠ '#' ∧ old ≠ ch <;> simp [hcl, Diag.isOutOfBounds]
        · cases j with
          | zero => exact absurd (by simpa using hin) hjout
          | succ j =>
            have e : i + (j + 1) = i + 1 + j := by omega
            exact ⟨j, by simpa using hj, by rwa [e] at hjout⟩
    · have hout : ¬ InGrid rows cols (cellOf r c dir i).1 (cellOf r c dir i).2 :=
        fun h => hstep ((inGrid_cellOf_iff dir i hr hc).1 h)
      refine ⟨sol, player, [overflowDiag w dir], ?_, hs, hp, ?_, ?_, ?_, ?_, ?_⟩
      · simp only [hstep, if_false]
      · intro j ch1 _ hjin
        exact absurd (inGrid_cellOf_mono dir (Nat.le_add_right i j) hr hc hjin) hout
      · intro a b _; exact ⟨rfl, rfl⟩
      · have hnone : ∀ p ∈ List.enumFrom i (ch :: rest),
            ¬ (clash sol (cellOf r c dir p.1) p.2 = true) := by
          intro p hp
          have hlt : i ≤ p.1 := List.le_fst_of_mem_enumFrom hp
          have hpo : ¬ InGrid rows cols (cellOf r c dir p.1).1 (cellOf r c dir p.1).2 :=
            fun h => hout (inGrid_cellOf_mono dir hlt hr hc h)
          simp [clash, Grid.read_eq_none_of_not_inGrid hs hpo]
        rw [List.countP_eq_zero.2 hnone]
        unfold overflowDiag
        split <;> simp [Diag.isConflict]
      · intro hall
        exact absurd (by simpa using hall 0 (by simp)) hout
      · intro _
        unfold overflowDiag
        split <;> simp [Diag.isOutOfBounds]

theorem construct_ten : Crossword.construct 10 10 = some game0 := by decide

/-- A placement with an in-bounds start on a well-dimensioned state: `addWord`
returns, records the word under the next number, and the loop's effect. -/
theorem addWord_spec (s : Crossword) (w cl : List Char) (r c : Int) (dir : Char)
    (hs : s.GridsOk) (hstart : InGrid s.rows s.cols r c) :
    ∃ sol1 player1 ds,
      s.addWord w cl r c dir =
        some ({ s with
                currentWordNumber := s.currentWordNumber + 1
                words := s.words ++ [{ word := w, clue := cl, row := r, col := c,
                                        direction := dir, number := s.currentWordNumber + 1 }]
                solutionGrid := sol1
                playerGrid := player1 }, ds) ∧
      sol1.HasDims s.rows s.cols ∧ player1.HasDims s.rows s.cols ∧
      (∀ j ch, w[j]? = some ch →
        InGrid s.rows s.cols (cellOf r c dir j).1 (cellOf r c dir j).2 →
        sol1.read (cellOf r c dir j).1 (cellOf r c dir j).2 = some ch ∧
        player1.read (cellOf r c dir j).1 (cellOf r c dir j).2 = some '_') ∧
      (∀ a b,
        (∀ j, j < w.length →
          InGrid s.rows s.cols (cellOf r c dir j).1 (cellOf r c dir j).2 →
          cellOf r c dir j ≠ (a, b)) →
        sol1.read a b = s.solutionGrid.read a b ∧ player1.read a b = s.playerGrid.read a b) ∧
      ds.countP Diag.isConflict =
        (List.enumFrom 0 w).countP (fun p => clash s.solutionGrid (cellOf r c dir p.1) p.2) ∧
      ((∀ j, j < w.length →
          InGrid s.rows s.cols (cellOf r c dir j).1 (cellOf r c dir j).2) →
        ds.filter Diag.isOutOfBounds = []) ∧
      ((∃ j, j < w.length ∧
          ¬ InGrid s.rows s.cols (cellOf r c dir j).1 (cellOf r c dir j).2) →
        ds.filter Diag.isOutOfBounds = [overflowDiag w dir]) := by
  obtain ⟨h1, h2, h3, h4⟩ := hstart
  obtain ⟨sol1, pl1, ds, hloop, hs1, hp1, hP1, hP2, hP3, hP4, hP5⟩ :=
    addWordLoop_spec s.rows s.cols w r c dir ⟨h1, h2⟩ ⟨h3, h4⟩ w 0 s.solutionGrid s.playerGrid
      hs.1 hs.2.1
  simp only [Nat.zero_add] at hP1 hP2 hP4 hP5
  refine ⟨sol1, pl1, ds, ?_, hs1, hp1, hP1, hP2, hP3, hP4, hP5⟩
  have hguard : ¬ (r ≥ s.rows ∨ c ≥ s.cols ∨ r < 0 ∨ c < 0) := by omega
  simp only [Crossword.addWord, hguard, if_false, hloop]
  rfl

/-- A placement whose start is out of bounds changes nothing (lines 32-35). -/
theorem addWord_of_start_outside (s : Crossword) (w cl : List Char) (r c : Int) (dir : Char)
    (hstart : ¬ InGrid s.rows s.cols r c) :
    s.addWord w cl r c dir = some (s, [Diag.startOutOfBounds w r c]) := by
  have hguard : r ≥ s.rows ∨ c ≥ s.cols ∨ r < 0 ∨ c < 0 := by
    unfold InGrid at hstart; omega
  simp only [Crossword.addWord, hguard, if_true]

theorem prepareCells_spec (rows cols : Int) (player : Grid Char) (i : Int)
    (hp : player.HasDims rows cols) (hi : 0 ≤ i ∧ i < rows) :
    ∀ (js : List Nat) (numbered : Grid (List Char)),
      (∀ j ∈ js, (j : Int) < cols) → numbered.HasDims rows cols →
      ∃ numbered1, prepareCells player i js numbered = some numbered1 ∧
        numbered1.HasDims rows cols ∧
        (∀ j ∈ js, numbered1.read i (j : Int) = (player.read i (j : Int)).map blankCell) ∧
        (∀ a b, (a ≠ i ∨ ∀ j ∈ js, b ≠ (j : Int)) → numbered1.read a b = numbered.read a b) := by
  intro js
  induction js with
  | nil =>
    intro numbered _ hn
    exact ⟨numbered, rfl, hn, by simp, fun _ _ _ => rfl⟩
  | cons j js ih =>
    intro numbered hjs hn
    have hin : InGrid rows cols i (j : Int) :=
      ⟨hi.1, hi.2, by omega, hjs j (List.mem_cons_self _ _)⟩
    obtain ⟨p, hpread⟩ := Grid.read_eq_some_of_inGrid hp hin
    obtain ⟨n0, hn0⟩ := Grid.write_eq_some_of_inGrid hn hin (blankCell p)
    have hd0 := Grid.hasDims_of_write hn0 hn
    obtain ⟨n1, hrun, hd1, hA, hB⟩ :=
      ih n0 (fun k hk => hjs k (List.mem_cons_of_mem _ hk)) hd0
    refine ⟨n1, ?_, hd1, ?_, ?_⟩
    · simp only [prepareCells, hpread, Option.bind_eq_bind, Option.some_bind]
      by_cases hpp : p = '#'
      · have hw : numbered.write i j ['#', '#', '#'] = some n0 := by
          simpa [blankCell, hpp] using hn0
        simp only [hpp, if_true, hw, Option.some_bind, hrun]
      · have hw : numbered.write i j [' ', '_', ' '] = some n0 := by
          simpa [blankCell, hpp] using hn0
        simp only [hpp, if_false, hw, Option.some_bind, hrun]
    · intro k hk
      by_cases hkjs : k ∈ js
      · exact hA k hkjs
      · have hkj : k = j := by
          rcases List.mem_cons.1 hk with h | h
          · exact h
          · exact absurd h hkjs
        subst hkj
        rw [hB i (k : Int) (Or.inr (fun j hj he => hkjs (by
          have : k = j := by omega
          rwa [this]))), Grid.read_of_write hn0, hpread]
        simp
    · intro a b hab
      have h1 : a ≠ i ∨ ∀ k ∈ js, b ≠ (k : Int) := by
        rcases hab with h | h
        · exact Or.inl h
        · exact Or.inr (fun k hk => h k (List.mem_cons_of_mem _ hk))
      have h2 : ¬ (a = i ∧ b = (j : Int)) := by
        rintro ⟨rfl, rfl⟩
        rcases hab with h | h
        · exact h rfl
        · exact h j (List.mem_cons_self _ _) rfl
      rw [hB a b h1, Grid.read_of_write hn0]
      simp [h2]

theorem prepareRows_spec (rows cols : Int) (player : Grid Char)
    (hp : player.HasDims rows cols) :
    ∀ (is : List Nat) (numbered : Grid (List Char)),
      (∀ i ∈ is, (i : Int) < rows) → numbered.HasDims rows cols →
      ∃ numbered1, prepareRows player cols is numbered = some numbered1 ∧
        numbered1.HasDims rows cols ∧
        (∀ i ∈ is, ∀ b, 0 ≤ b → b < cols →
          numbered1.read (i : Int) b = (player.read (i : Int) b).map blankCell) ∧
        (∀ a b, (∀ i ∈ is, a ≠ (i : Int)) → numbered1.read a b = numbered.read a b) := by
  intro is
  induction is with
  | nil =>
    intro numbered _ hn
    exact ⟨numbered, rfl, hn, by simp, fun _ _ _ => rfl⟩
  | cons i is ih =>
    intro numbered his hn
    have hi : 0 ≤ (i : Int) ∧ (i : Int) < rows := ⟨by omega, his i (List.mem_cons_self _ _)⟩
    have hcols : ∀ j ∈ List.range cols.toNat, (j : Int) < cols := by
      intro j hj
      have := List.mem_range.1 hj
      omega
    obtain ⟨n0, hcells, hd0, hA0, hB0⟩ :=
      prepareCells_spec rows cols player i hp hi (List.range cols.toNat) numbered hcols hn
    obtain ⟨n1, hrun, hd1, hA, hB⟩ :=
      ih n0 (fun k hk => his k (List.mem_cons_of_mem _ hk)) hd0
    refine ⟨n1, ?_, hd1, ?_, ?_⟩
    · simp only [prepareRows, hcells, Option.bind_eq_bind, Option.some_bind, hrun]
    · intro k hk b hb0 hb1
      by_cases hkis : k ∈ is
      · exact hA k hkis b hb0 hb1
      · have hki : k = i := by
          rcases List.mem_cons.1 hk with h | h
          · exact h
          · exact absurd h hkis
        subst hki
        rw [hB (k : Int) b (fun i hi he => hkis (by
          have : k = i := by omega
          rwa [this]))]
        have hbm : b.toNat ∈ List.range cols.toNat := List.mem_range.2 (by omega)
        have := hA0 b.toNat hbm
        rwa [Int.toNat_of_nonneg hb0] at this
    · intro a b hab
      rw [hB a b (fun k hk => hab k (List.mem_cons_of_mem _ hk))]
      exact hB0 a b (Or.inl (hab i (List.mem_cons_self _ _)))

theorem prepareNumbers_spec (rows cols : Int) (player : Grid Char)
    (hp : player.HasDims rows cols) :
    ∀ (ws : List WordInfo) (numbered : Grid (List Char)),
      (∀ e ∈ ws, InGrid rows cols e.row e.col) → numbered.HasDims rows cols →
      ∃ numbered1, prepareNumbers rows cols player ws numbered = some numbered1 ∧
        numbered1.HasDims rows cols ∧
        ∀ a b, numbered1.read a b =
          match lastStartingAt ws a b with
          | some e =>
            if player.read a b = some '_' then some (numberLabel e.number)
            else numbered.read a b
          | none => numbered.read a b := by
  intro ws
  induction ws with
  | nil =>
    intro numbered _ hn
    exact ⟨numbered, rfl, hn, fun _ _ => rfl⟩
  | cons e ws ih =>
    intro numbered hws hn
    have hin : InGrid rows cols e.row e.col := hws e (List.mem_cons_self _ _)
    have hguard : e.row < rows ∧ e.col < cols := ⟨hin.2.1, hin.2.2.2⟩
    obtain ⟨p, hpread⟩ := Grid.read_eq_some_of_inGrid hp hin
    have hrest : ∀ e1 ∈ ws, InGrid rows cols e1.row e1.col :=
      fun e1 h1 => hws e1 (List.mem_cons_of_mem _ h1)
    by_cases hfill : p = '_'
    · obtain ⟨n0, hn0⟩ := Grid.write_eq_some_of_inGrid hn hin (numberLabel e.number)
      obtain ⟨n1, hrun, hd1, hA⟩ := ih n0 hrest (Grid.hasDims_of_write hn0 hn)
      refine ⟨n1, ?_, hd1, ?_⟩
      · simp only [prepareNumbers, hguard, and_self, if_true, hpread, Option.bind_eq_bind,
          Option.some_bind, hfill, hn0, hrun]
      · intro a b
        rw [hA a b, Grid.read_of_write hn0]
        simp only [lastStartingAt]
        cases hl : lastStartingAt ws a b with
        | some e1 =>
          simp only
          by_cases hab : a = e.row ∧ b = e.col
          · obtain ⟨rfl, rfl⟩ := hab
            simp [hpread, hfill]
          · simp [hab]
        | none =>
          simp only
          by_cases hab : a = e.row ∧ b = e.col
          · obtain ⟨rfl, rfl⟩ := hab
            simp [hpread, hfill]
          · have hab1 : ¬ (e.row = a ∧ e.col = b) := fun h => hab ⟨h.1.symm, h.2.symm⟩
            simp [hab, hab1]
    · obtain ⟨n1, hrun, hd1, hA⟩ := ih numbered hrest hn
      refine ⟨n1, ?_, hd1, ?_⟩
      · simp only [prepareNumbers, hguard, and_self, if_true, hpread, Option.bind_eq_bind,
          Option.some_bind, hfill, if_false, hrun]
      · intro a b
        rw [hA a b]
        simp only [lastStartingAt]
        cases hl : lastStartingAt ws a b with
        | some e1 => rfl
        | none =>
          simp only
          by_cases hab : e.row = a ∧ e.col = b
          · obtain ⟨rfl, rfl⟩ := hab
            simp [hpread, hfill]
          · simp [hab]

/-- What `preparePlayerGridWithNumbers` computes on a well-formed state: it
returns, changes only the display grid, and every display cell is
`expectedCell` of the player-grid character and of the last word starting there. -/
theorem prepare_spec (s : Crossword) (hs : s.WellFormed) :
    ∃ numbered1, s.preparePlayerGridWithNumbers = some { s with numberedPlayerGrid := numbered1 } ∧
      numbered1.HasDims s.rows s.cols ∧
      ∀ a b, InGrid s.rows s.cols a b →
        ∃ p, s.playerGrid.read a b = some p ∧
          numbered1.read a b = some (expectedCell p (lastStartingAt s.words a b)) := by
  obtain ⟨⟨-, hp, hn⟩, hw⟩ := hs
  have hrows : ∀ i ∈ List.range s.rows.toNat, (i : Int) < s.rows := by
    intro i hi
    have := List.mem_range.1 hi
    omega
  obtain ⟨n0, hfirst, hd0, hA0, -⟩ :=
    prepareRows_spec s.rows s.cols s.playerGrid hp (List.range s.rows.toNat)
      s.numberedPlayerGrid hrows hn
  obtain ⟨n1, hsecond, hd1, hA1⟩ :=
    prepareNumbers_spec s.rows s.cols s.playerGrid hp s.words n0 hw hd0
  refine ⟨n1, ?_, hd1, ?_⟩
  · simp only [Crossword.preparePlayerGridWithNumbers, hfirst, Option.bind_eq_bind,
      Option.some_bind, hsecond]
    rfl
  · intro a b hin
    obtain ⟨p, hpread⟩ := Grid.read_eq_some_of_inGrid hp hin
    refine ⟨p, hpread, ?_⟩
    have ha : a.toNat ∈ List.range s.rows.toNat := List.mem_range.2 (by
      have := hin.1; have := hin.2.1; omega)
    have h0 := hA0 a.toNat ha b hin.2.2.1 hin.2.2.2
    rw [Int.toNat_of_nonneg hin.1, hpread] at h0
    rw [hA1 a b, h0, hpread]
    cases hl : lastStartingAt s.words a b with
    | some e =>
      by_cases hfill : p = '_' <;> simp [expectedCell, hfill]
    | none => simp [expectedCell]

theorem toDigitsCore_length_ge (b : Nat) :
    ∀ (fuel n : Nat) (ds : List Char), ds.length ≤ (Nat.toDigitsCore b fuel n ds).length := by
  intro fuel
  induction fuel with
  | zero => intro n ds; simp [Nat.toDigitsCore]
  | succ fuel ih =>
    intro n ds
    simp only [Nat.toDigitsCore]
    split
    · simp
    · exact Nat.le_trans (by simp) (ih _ _)

theorem toDigits_one_digit {n : Nat} (h : n < 10) : Nat.toDigits 10 n = [Nat.digitChar n] := by
  have h0 : n / 10 = 0 := by omega
  have h1 : n % 10 = n := by omega
  simp [Nat.toDigits, Nat.toDigitsCore, h0, h1]

theorem toDigits_two_digits {n : Nat} (h1 : 10 ≤ n) (h2 : n < 100) :
    Nat.toDigits 10 n = [Nat.digitChar (n / 10), Nat.digitChar (n % 10)] := by
  obtain ⟨m, rfl⟩ : ∃ m, n = m + 1 := ⟨n - 1, by omega⟩
  have h0 : (m + 1) / 10 ≠ 0 := by omega
  have h3 : (m + 1) / 10 / 10 = 0 := by omega
  have h4 : (m + 1) / 10 % 10 = (m + 1) / 10 := by omega
  simp [Nat.toDigits, Nat.toDigitsCore, h0, h3, h4]

theorem toDigits_length_ge_three {n : Nat} (h : 100 ≤ n) : 3 ≤ (Nat.toDigits 10 n).length := by
  obtain ⟨m, rfl⟩ : ∃ m, n = m + 2 := ⟨n - 2, by omega⟩
  have h0 : (m + 2) / 10 ≠ 0 := by omega
  have h3 : (m + 2) / 10 / 10 ≠ 0 := by omega
  simp only [Nat.toDigits, Nat.toDigitsCore, h0, h3, if_false]
  split
  · simp
  · refine Nat.le_trans ?_ (toDigitsCore_length_ge 10 _ _ _)
    simp

/-- The cell text of a non-negative number is the label of the specification,
and it has exactly three characters. -/
theorem numberLabel_eq_specLabel (n : Nat) :
    numberLabel (n : Int) = specLabel n ∧ (numberLabel (n : Int)).length = 3 := by
  have hto : to_string (n : Int) = Nat.toDigits 10 n := rfl
  unfold numberLabel specLabel
  simp only [hto]
  by_cases h1 : n < 10
  · simp [toDigits_one_digit h1, h1]
  · by_cases h2 : n < 100
    · simp [toDigits_two_digits (Nat.le_of_not_lt h1) h2, h1, h2]
    · have h3 := toDigits_length_ge_three (Nat.le_of_not_lt h2)
      have e1 : (Nat.toDigits 10 n).length ≠ 1 := by omega
      have e2 : (Nat.toDigits 10 n).length ≠ 2 := by omega
      simp only [e1, e2, h1, h2, if_false, List.length_take, true_and]
      omega

theorem lastStartingAt_eq_none_iff (ws : List WordInfo) (a b : Int) :
    lastStartingAt ws a b = none ↔ ∀ e ∈ ws, ¬ (e.row = a ∧ e.col = b) := by
  induction ws with
  | nil => simp [lastStartingAt]
  | cons e ws ih =>
    simp only [lastStartingAt, List.mem_cons, forall_eq_or_imp]
    rw [← ih]
    cases lastStartingAt ws a b with
    | some e1 => simp
    | none =>
      by_cases hab : e.row = a ∧ e.col = b
      · simp [hab]
      · simp [hab]

theorem lastStartingAt_append (l1 l2 : List WordInfo) (a b : Int) :
    lastStartingAt (l1 ++ l2) a b =
      match lastStartingAt l2 a b with
      | some e => some e
      | none => lastStartingAt l1 a b := by
  induction l1 with
  | nil =>
    simp only [List.nil_append]
    generalize lastStartingAt l2 a b = x
    cases x <;> simp [lastStartingAt]
  | cons e l1 ih =>
    have hstep : ∀ l : List WordInfo, lastStartingAt (e :: l) a b =
        match lastStartingAt l a b with
        | some e1 => some e1
        | none => if e.row = a ∧ e.col = b then some e else none := fun _ => rfl
    rw [List.cons_append, hstep, hstep, ih]
    generalize lastStartingAt l2 a b = x
    cases x <;> simp

/-- The word found by `lastStartingAt` is recorded, starts at the cell, and no
word after it in the list starts there. -/
theorem lastStartingAt_eq_some_iff (ws : List WordInfo) (a b : Int) (e : WordInfo) :
    lastStartingAt ws a b = some e ↔
      ∃ pre post, ws = pre ++ e :: post ∧ (e.row = a ∧ e.col = b) ∧
        ∀ e1 ∈ post, ¬ (e1.row = a ∧ e1.col = b) := by
  constructor
  · induction ws with
    | nil => intro h; simp [lastStartingAt] at h
    | cons e0 ws ih =>
      intro h
      simp only [lastStartingAt] at h
      cases hl : lastStartingAt ws a b with
      | some e1 =>
        rw [hl] at h
        simp only [Option.some.injEq] at h
        subst h
        obtain ⟨pre, post, rfl, hat, hpost⟩ := ih hl
        exact ⟨e0 :: pre, post, rfl, hat, hpost⟩
      | none =>
        rw [hl] at h
        simp only at h
        split at h
        · rename_i hat
          simp only [Option.some.injEq] at h
          subst h
          exact ⟨[], ws, rfl, hat, (lastStartingAt_eq_none_iff ws a b).1 hl⟩
        · cases h
  · rintro ⟨pre, post, rfl, hat, hpost⟩
    have hnone := (lastStartingAt_eq_none_iff post a b).2 hpost
    rw [lastStartingAt_append]
    simp [lastStartingAt, hnone, hat]

theorem hasDims_replicate {α : Type} (r c : Int) (x : α) (hr : 0 ≤ r) (hc : 0 ≤ c) :
    Grid.HasDims (List.replicate r.toNat (List.replicate c.toNat x)) r c := by
  refine ⟨by simp; omega, ?_⟩
  intro cells hmem
  rw [(List.mem_replicate.1 hmem).2]
  simp; omega

theorem wellFormed_construct {r c : Int} {s : Crossword}
    (h : Crossword.construct r c = some s) : s.WellFormed ∧ s.rows = r ∧ s.cols = c := by
  unfold Crossword.construct at h
  split at h
  · cases h
  · rename_i hneg
    have hr : 0 ≤ r := by omega
    have hc : 0 ≤ c := by omega
    simp only [Option.some.injEq] at h
    subst h
    refine ⟨⟨⟨hasDims_replicate r c _ hr hc, hasDims_replicate r c _ hr hc,
      hasDims_replicate r c _ hr hc⟩, ?_⟩, rfl, rfl⟩
    intro e he
    simp at he

theorem construct_eq_some {r c : Int} (hr : 0 ≤ r) (hc : 0 ≤ c) :
    ∃ s, Crossword.construct r c = some s := by
  have hneg : ¬ (r < 0 ∨ c < 0) := by omega
  simp only [Crossword.construct, hneg, if_false]
  exact ⟨_, rfl⟩

/-- On a well-formed state every call returns, in a well-formed state of the
same dimensions. -/
theorem step_wellFormed (s : Crossword) (op : Op) (hs : s.WellFormed) :
    ∃ s1 ds, s.step op = some (s1, ds) ∧ s1.WellFormed ∧
      s1.rows = s.rows ∧ s1.cols = s.cols := by
  cases op with
  | add w cl r c dir =>
    by_cases hstart : InGrid s.rows s.cols r c
    · obtain ⟨sol1, pl1, ds, hadd, hd1, hd2, -⟩ := addWord_spec s w cl r c dir hs.1 hstart
      refine ⟨_, ds, hadd, ⟨⟨hd1, hd2, hs.1.2.2⟩, ?_⟩, rfl, rfl⟩
      intro e he
      rcases List.mem_append.1 he with h | h
      · exact hs.2 e h
      · simp only [List.mem_singleton] at h
        subst h
        exact hstart
    · exact ⟨s, _, addWord_of_start_outside s w cl r c dir hstart, hs, rfl, rfl⟩
  | prepare =>
    obtain ⟨n1, hprep, hd, -⟩ := prepare_spec s hs
    refine ⟨{ s with numberedPlayerGrid := n1 }, [], ?_, ⟨⟨hs.1.1, hs.1.2.1, hd⟩, hs.2⟩,
      rfl, rfl⟩
    simp only [Crossword.step, hprep, Option.map_some']

/-- A property kept by every permitted call holds after every sequence of
permitted calls, and the sequence returns. -/
theorem run_invariant (P : Crossword → Prop) (allowed : Op → Prop)
    (hkeep : ∀ s op s1 ds, s.WellFormed → P s → allowed op →
      s.step op = some (s1, ds) → P s1) :
    ∀ (ops : List Op) (s : Crossword), (∀ op ∈ ops, allowed op) → s.WellFormed → P s →
      ∃ s1 ds, s.run ops = some (s1, ds) ∧ s1.WellFormed ∧ P s1 ∧
        s1.rows = s.rows ∧ s1.cols = s.cols := by
  intro ops
  induction ops with
  | nil =>
    intro s _ hs hP
    exact ⟨s, [], rfl, hs, hP, rfl, rfl⟩
  | cons op ops ih =>
    intro s hall hs hP
    obtain ⟨s1, ds1, hstep, hs1, hr1, hc1⟩ := step_wellFormed s op hs
    have hP1 := hkeep s op s1 ds1 hs hP (hall op (List.mem_cons_self _ _)) hstep
    obtain ⟨s2, ds2, hrun, hs2, hP2, hr2, hc2⟩ :=
      ih s1 (fun o ho => hall o (List.mem_cons_of_mem _ ho)) hs1 hP1
    refine ⟨s2, ds1 ++ ds2, ?_, hs2, hP2, by rw [hr2, hr1], by rw [hc2, hc1]⟩
    simp only [Crossword.run, hstep, Option.bind_eq_bind, Option.some_bind, hrun]
    rfl

/-- What a call does to the word list and the counter: a placement with an
in-bounds start appends one entry under the next number, every other call
leaves list and counter as they are; the numbering pass also leaves the
solution and player grids as they are. -/
theorem step_words (s : Crossword) (op : Op) (hs : s.WellFormed) {s1 : Crossword}
    {ds : List Diag} (h : s.step op = some (s1, ds)) :
    match op with
    | Op.add w cl r c dir =>
      if InGrid s.rows s.cols r c then
        s1.words = s.words ++ [{ word := w, clue := cl, row := r, col := c, direction := dir,
                                 number := s.currentWordNumber + 1 }] ∧
        s1.currentWordNumber = s.currentWordNumber + 1
      else s1 = s
    | Op.prepare =>
      s1.words = s.words ∧ s1.currentWordNumber = s.currentWordNumber ∧
      s1.solutionGrid = s.solutionGrid ∧ s1.playerGrid = s.playerGrid := by
  cases op with
  | add w cl r c dir =>
    simp only
    by_cases hstart : InGrid s.rows s.cols r c
    · obtain ⟨sol1, pl1, ds1, hadd, -⟩ := addWord_spec s w cl r c dir hs.1 hstart
      simp only [Crossword.step, hadd, Option.some.injEq, Prod.mk.injEq] at h
      obtain ⟨rfl, -⟩ := h
      simp [hstart]
    · simp only [Crossword.step, addWord_of_start_outside s w cl r c dir hstart, Option.some.injEq,
        Prod.mk.injEq] at h
      obtain ⟨rfl, -⟩ := h
      simp [hstart]
  | prepare =>
    obtain ⟨n1, hprep, -⟩ := prepare_spec s hs
    simp only [Crossword.step, hprep, Option.map_some', Option.some.injEq, Prod.mk.injEq] at h
    obtain ⟨rfl, -⟩ := h
    exact ⟨rfl, rfl, rfl, rfl⟩

theorem numbered_step (s : Crossword) (op : Op) (s1 : Crossword) (ds : List Diag)
    (hs : s.WellFormed) (hN : s.Numbered) (_ : True) (h : s.step op = some (s1, ds)) :
    s1.Numbered := by
  have hw := step_words s op hs h
  cases op with
  | add w cl r c dir =>
    simp only at hw
    split at hw
    · obtain ⟨hwords, hnum⟩ := hw
      obtain ⟨hc, hi⟩ := hN
      refine ⟨by rw [hnum, hwords, hc]; simp, ?_⟩
      intro i h
      rw [hwords] at h
      simp only [hwords]
      by_cases hlt : i < s.words.length
      · rw [List.getElem_append_left hlt]
        exact hi i hlt
      · have hieq : i = s.words.length := by
          simp at h; omega
        subst hieq
        simp [hc]
    · subst hw; exact hN
  | prepare =>
    obtain ⟨hwords, hnum, -, -⟩ := hw
    obtain ⟨hc, hi⟩ := hN
    refine ⟨by rw [hnum, hwords, hc], ?_⟩
    intro i h
    simp only [hwords]
    exact hi i (by rw [← hwords]; exact h)

theorem run_records :
    ∀ (ops : List Op) (s : Crossword), s.WellFormed →
      ∃ s1 ds, s.run ops = some (s1, ds) ∧
        s1.words.map WordInfo.args =
          s.words.map WordInfo.args ++ recordedCalls s.rows s.cols ops := by
  intro ops
  induction ops with
  | nil => intro s _; exact ⟨s, [], rfl, by simp [recordedCalls]⟩
  | cons op ops ih =>
    intro s hs
    obtain ⟨s1, ds1, hstep, hs1, hr1, hc1⟩ := step_wellFormed s op hs
    obtain ⟨s2, ds2, hrun, hrec⟩ := ih s1 hs1
    refine ⟨s2, ds1 ++ ds2, ?_, ?_⟩
    · simp only [Crossword.run, hstep, Option.bind_eq_bind, Option.some_bind, hrun]
      rfl
    · have hw := step_words s op hs hstep
      rw [hrec, hr1, hc1]
      cases op with
      | add w cl r c dir =>
        simp only at hw
        by_cases hstart : InGrid s.rows s.cols r c
        · simp only [hstart, if_true] at hw
          simp [hw.1, recordedCalls, hstart, WordInfo.args]
        · simp only [hstart, if_false] at hw
          subst hw
          simp [recordedCalls, hstart]
      | prepare =>
        simp [hw.1, recordedCalls]

theorem read_replicate {α : Type} {n m : Nat} {x v : α} {a b : Int}
    (h : Grid.read (List.replicate n (List.replicate m x)) a b = some v) : v = x := by
  unfold Grid.read at h
  split at h
  · split at h
    · rename_i cells hc
      rw [List.getElem?_replicate] at hc
      split at hc
      · simp only [Option.some.injEq] at hc
        subst hc
        rw [List.getElem?_replicate] at h
        split at h
        · simp only [Option.some.injEq] at h
          exact h.symm
        · cases h
      · cases hc
    · cases h
  · cases h

theorem lettersMatch_step (s : Crossword) (op : Op) (s1 : Crossword) (ds : List Diag)
    (hs : s.WellFormed) (hL : s.LettersMatch) (hop : op.avoidsMarker = true)
    (h : s.step op = some (s1, ds)) : s1.LettersMatch := by
  cases op with
  | add w cl r c dir =>
    by_cases hstart : InGrid s.rows s.cols r c
    · obtain ⟨sol1, pl1, ds1, hadd, -, -, hP1, hP2, -⟩ := addWord_spec s w cl r c dir hs.1 hstart
      simp only [Crossword.step, hadd, Option.some.injEq, Prod.mk.injEq] at h
      obtain ⟨rfl, -⟩ := h
      have hw : '#' ∉ w := by simpa [Op.avoidsMarker] using hop
      intro a b ch p hch hp
      simp only at hch hp
      by_cases hcov : ∃ j, j < w.length ∧
          InGrid s.rows s.cols (cellOf r c dir j).1 (cellOf r c dir j).2 ∧
          cellOf r c dir j = (a, b)
      · obtain ⟨j, hj, hjin, hjab⟩ := hcov
        obtain ⟨e1, e2⟩ := hP1 j w[j] (List.getElem?_eq_getElem hj) hjin
        rw [hjab] at e1 e2
        simp only at e1 e2
        rw [e1] at hch
        rw [e2] at hp
        simp only [Option.some.injEq] at hch hp
        subst hch hp
        have hne : w[j] ≠ '#' := fun he => hw (by rw [← he]; exact List.getElem_mem hj)
        exact ⟨⟨fun _ => rfl, fun _ => hne⟩, Or.inr rfl⟩
      · have hnot : ∀ j, j < w.length →
            InGrid s.rows s.cols (cellOf r c dir j).1 (cellOf r c dir j).2 →
            cellOf r c dir j ≠ (a, b) := fun j hj hjin he => hcov ⟨j, hj, hjin, he⟩
        obtain ⟨e1, e2⟩ := hP2 a b hnot
        rw [e1] at hch
        rw [e2] at hp
        exact hL a b ch p hch hp
    · simp only [Crossword.step, addWord_of_start_outside s w cl r c dir hstart, Option.some.injEq,
        Prod.mk.injEq] at h
      obtain ⟨rfl, -⟩ := h
      exact hL
  | prepare =>
    obtain ⟨-, -, hsol, hpl⟩ := step_words s Op.prepare hs h
    intro a b ch p hch hp
    rw [hsol] at hch
    rw [hpl] at hp
    exact hL a b ch p hch hp

theorem setw_length (n : Nat) (text : List Char) :
    (setw n text).length = max n text.length := by
  simp only [setw, List.length_append, List.length_replicate]
  omega

theorem to_string_length_le_two {i : Nat} (h : i < 100) :
    (to_string (i : Int)).length ≤ 2 := by
  have hto : to_string (i : Int) = Nat.toDigits 10 i := rfl
  rw [hto]
  by_cases h1 : i < 10
  · rw [toDigits_one_digit h1]; simp
  · rw [toDigits_two_digits (Nat.le_of_not_lt h1) h]; simp

theorem displayCells_spec (rows cols : Int) (numbered : Grid (List Char)) (i : Int)
    (hn : numbered.HasDims rows cols) (hi : 0 ≤ i ∧ i < rows)
    (hlen : ∀ a b cell, numbered.read a b = some cell → cell.length = 3) :
    ∀ js : List Nat, (∀ j ∈ js, (j : Int) < cols) →
      ∃ cells, displayCells numbered i js = some cells ∧ cells.length = 3 * js.length := by
  intro js
  induction js with
  | nil => intro _; exact ⟨[], rfl, rfl⟩
  | cons j js ih =>
    intro hjs
    have hin : InGrid rows cols i (j : Int) :=
      ⟨hi.1, hi.2, by omega, hjs j (List.mem_cons_self _ _)⟩
    obtain ⟨cell, hcell⟩ := Grid.read_eq_some_of_inGrid hn hin
    obtain ⟨cells, hrest, hl⟩ := ih (fun k hk => hjs k (List.mem_cons_of_mem _ hk))
    refine ⟨cell ++ cells, ?_, ?_⟩
    · simp only [displayCells, hcell, hrest, Option.bind_eq_bind, Option.some_bind]
      rfl
    · simp only [List.length_append, hlen _ _ _ hcell, hl, List.length_cons]
      omega

theorem displayRows_spec (rows cols : Int) (numbered : Grid (List Char))
    (hn : numbered.HasDims rows cols)
    (hlen : ∀ a b cell, numbered.read a b = some cell → cell.length = 3) :
    ∀ is : List Nat, (∀ i ∈ is, (i : Int) < rows) →
      ∃ lines, displayRows numbered cols is = some lines ∧ lines.length = is.length ∧
        ∀ (k : Nat) (h1 : k < lines.length) (h2 : k < is.length),
          (lines[k]).length = max 2 (to_string ((is[k] : Nat) : Int)).length + 1 + 3 * cols.toNat := by
  intro is
  induction is with
  | nil => intro _; exact ⟨[], rfl, rfl, fun k h1 _ => absurd h1 (by simp)⟩
  | cons i is ih =>
    intro his
    have hi : 0 ≤ (i : Int) ∧ (i : Int) < rows := ⟨by omega, his i (List.mem_cons_self _ _)⟩
    have hcols : ∀ j ∈ List.range cols.toNat, (j : Int) < cols := by
      intro j hj
      have := List.mem_range.1 hj
      omega
    obtain ⟨cells, hcells, hcl⟩ :=
      displayCells_spec rows cols numbered i hn hi hlen (List.range cols.toNat) hcols
    obtain ⟨lines, hrest, hll, hk⟩ := ih (fun k hk => his k (List.mem_cons_of_mem _ hk))
    refine ⟨(setw 2 (to_string (i : Int)) ++ ['|'] ++ cells) :: lines, ?_, by simp [hll], ?_⟩
    · simp only [displayRows, hcells, hrest, Option.bind_eq_bind, Option.some_bind]
      rfl
    · intro k h1 h2
      cases k with
      | zero =>
        simp only [List.getElem_cons_zero, List.length_append, setw_length, hcl,
          List.length_range, List.length_cons, List.length_nil]
      | succ k =>
        simp only [List.getElem_cons_succ]
        exact hk k (by simpa using h1) (by simpa using h2)

theorem clueLines_eq_filter_map (dir : Char) (ws : List WordInfo) :
    clueLines dir ws = (ws.filter (fun e => decide (e.direction = dir))).map clueLine := by
  induction ws with
  | nil => rfl
  | cons e ws ih =>
    by_cases h : e.direction = dir
    · simp [clueLines, h, ih]
    · simp [clueLines, h, ih]

theorem cellsAreLabels_step (s : Crossword) (op : Op) (s1 : Crossword) (ds : List Diag)
    (hs : s.WellFormed) (hC : s.CellsAreLabels) (_ : True)
    (h : s.step op = some (s1, ds)) : s1.CellsAreLabels := by
  cases op with
  | add w cl r c dir =>
    by_cases hstart : InGrid s.rows s.cols r c
    · obtain ⟨sol1, pl1, ds1, hadd, -⟩ := addWord_spec s w cl r c dir hs.1 hstart
      simp only [Crossword.step, hadd, Option.some.injEq, Prod.mk.injEq] at h
      obtain ⟨rfl, -⟩ := h
      intro a b cell hcell
      rcases hC a b cell hcell with h1 | h1 | ⟨e, he, h1⟩
      · exact Or.inl h1
      · exact Or.inr (Or.inl h1)
      · exact Or.inr (Or.inr ⟨e, List.mem_append_left _ he, h1⟩)
    · simp only [Crossword.step, addWord_of_start_outside s w cl r c dir hstart,
        Option.some.injEq, Prod.mk.injEq] at h
      obtain ⟨rfl, -⟩ := h
      exact hC
  | prepare =>
    obtain ⟨n1, hprep, hd, hcells⟩ := prepare_spec s hs
    simp only [Crossword.step, hprep, Option.map_some', Option.some.injEq, Prod.mk.injEq] at h
    obtain ⟨rfl, -⟩ := h
    intro a b cell hcell
    have hin : InGrid s.rows s.cols a b := Grid.inGrid_of_read_eq_some hd hcell
    obtain ⟨p, -, hread⟩ := hcells a b hin
    have hcell1 : n1.read a b = some cell := hcell
    rw [hread] at hcell1
    simp only [Option.some.injEq] at hcell1
    subst hcell1
    cases hl : lastStartingAt s.words a b with
    | none =>
      simp only [expectedCell, blankCell]
      split
      · exact Or.inl rfl
      · exact Or.inr (Or.inl rfl)
    | some e =>
      obtain ⟨pre, post, hw, -, -⟩ := (lastStartingAt_eq_some_iff s.words a b e).1 hl
      simp only [expectedCell, blankCell]
      split
      · exact Or.inr (Or.inr ⟨e, by rw [hw]; simp, rfl⟩)
      · split
        · exact Or.inl rfl
        · exact Or.inr (Or.inl rfl)

theorem fillableIsSpan_step (s : Crossword) (op : Op) (s1 : Crossword) (ds : List Diag)
    (hs : s.WellFormed) (hF : s.FillableIsSpan) (_ : True)
    (h : s.step op = some (s1, ds)) : s1.FillableIsSpan := by
  cases op with
  | add w cl r c dir =>
    by_cases hstart : InGrid s.rows s.cols r c
    · obtain ⟨sol1, pl1, ds1, hadd, -, hd2, hP1, hP2, -⟩ :=
        addWord_spec s w cl r c dir hs.1 hstart
      simp only [Crossword.step, hadd, Option.some.injEq, Prod.mk.injEq] at h
      obtain ⟨rfl, -⟩ := h
      intro a b p hp
      simp only at hp
      have hin : InGrid s.rows s.cols a b := Grid.inGrid_of_read_eq_some hd2 hp
      by_cases hcov : ∃ j, j < w.length ∧ cellOf r c dir j = (a, b)
      · obtain ⟨j, hj, hjab⟩ := hcov
        have hjin : InGrid s.rows s.cols (cellOf r c dir j).1 (cellOf r c dir j).2 := by
          rw [hjab]; exact hin
        obtain ⟨-, e2⟩ := hP1 j w[j] (List.getElem?_eq_getElem hj) hjin
        rw [hjab] at e2
        simp only at e2
        rw [e2] at hp
        simp only [Option.some.injEq] at hp
        subst hp
        refine ⟨⟨fun _ => ⟨_, List.mem_append_right _ (List.mem_singleton.2 rfl), j, hj, hjab⟩,
          fun _ => rfl⟩, Or.inl rfl⟩
      · have hnot : ∀ j, j < w.length →
            InGrid s.rows s.cols (cellOf r c dir j).1 (cellOf r c dir j).2 →
            cellOf r c dir j ≠ (a, b) := fun j hj _ he => hcov ⟨j, hj, he⟩
        obtain ⟨-, e2⟩ := hP2 a b hnot
        rw [e2] at hp
        obtain ⟨hiff, hor⟩ := hF a b p hp
        refine ⟨⟨?_, ?_⟩, hor⟩
        · intro hfill
          obtain ⟨e, he, i, hi, hcell⟩ := hiff.1 hfill
          exact ⟨e, List.mem_append_left _ he, i, hi, hcell⟩
        · rintro ⟨e, he, i, hi, hcell⟩
          rcases List.mem_append.1 he with hold | hnew
          · exact hiff.2 ⟨e, hold, i, hi, hcell⟩
          · simp only [List.mem_singleton] at hnew
            subst hnew
            exact absurd ⟨i, hi, hcell⟩ hcov
    · simp only [Crossword.step, addWord_of_start_outside s w cl r c dir hstart,
        Option.some.injEq, Prod.mk.injEq] at h
      obtain ⟨rfl, -⟩ := h
      exact hF
  | prepare =>
    obtain ⟨hw, -, -, hpl⟩ := step_words s Op.prepare hs h
    intro a b p hp
    rw [hpl] at hp
    rw [hw]
    exact hF a b p hp

theorem read_replicate_of_inGrid {α : Type} {r c a b : Int} (x : α)
    (hin : InGrid r c a b) :
    Grid.read (List.replicate r.toNat (List.replicate c.toNat x)) a b = some x := by
  have hr : 0 ≤ r := by have := hin.1; have := hin.2.1; omega
  have hc : 0 ≤ c := by have := hin.2.2.1; have := hin.2.2.2; omega
  obtain ⟨v, hv⟩ := Grid.read_eq_some_of_inGrid (hasDims_replicate r c x hr hc) hin
  rw [hv, read_replicate hv]

theorem construct_eq {r c : Int} (hr : 0 ≤ r) (hc : 0 ≤ c) :
    Crossword.construct r c = some
      { rows := r
        cols := c
        solutionGrid := List.replicate r.toNat (List.replicate c.toNat '#')
        playerGrid := List.replicate r.toNat (List.replicate c.toNat '#')
        numberedPlayerGrid := List.replicate r.toNat (List.replicate c.toNat ['#', '#', '#'])
        words := []
        currentWordNumber := 0 } := by
  have hneg : ¬ (r < 0 ∨ c < 0) := by omega
  simp only [Crossword.construct, hneg, if_false]

theorem construct_inv {r c : Int} {s : Crossword} (h : Crossword.construct r c = some s) :
    0 ≤ r ∧ 0 ≤ c ∧ s =
      { rows := r
        cols := c
        solutionGrid := List.replicate r.toNat (List.replicate c.toNat '#')
        playerGrid := List.replicate r.toNat (List.replicate c.toNat '#')
        numberedPlayerGrid := List.replicate r.toNat (List.replicate c.toNat ['#', '#', '#'])
        words := []
        currentWordNumber := 0 } := by
  by_cases hneg : r < 0 ∨ c < 0
  · simp [Crossword.construct, hneg] at h
  · have hr : 0 ≤ r := by omega
    have hc : 0 ≤ c := by omega
    rw [construct_eq hr hc] at h
    simp only [Option.some.injEq] at h
    exact ⟨hr, hc, h.symm⟩

theorem clueLines_append_other (dir : Char) (ws : List WordInfo) (e : WordInfo)
    (h : e.direction ≠ dir) : clueLines dir (ws ++ [e]) = clueLines dir ws := by
  simp [clueLines_eq_filter_map, List.filter_append, h]

/-! ## The claims of the specification -/

/-- C1. A placement whose start is in bounds and whose whole span fits in the
grid (`c + length ≤ cols` for Across, `r + length ≤ rows` for Down) returns,
and afterwards every cell the word covers is fillable (`'_'`) in the player
grid and holds the word's `i`-th letter in the solution grid.  The `i`-th
covered cell is `cellOf r c dir i`. -/
theorem addWord_fits_places_every_letter (s : Crossword) (w cl : List Char) (r c : Int)
    (dir : Char) (hs : s.GridsOk) (hstart : InGrid s.rows s.cols r c)
    (hfit : if dir = 'A' then c + (w.length : Int) ≤ s.cols
      else r + (w.length : Int) ≤ s.rows) :
    ∃ s1 ds, s.addWord w cl r c dir = some (s1, ds) ∧
      ∀ (i : Nat) (h : i < w.length),
        s1.playerGrid.read (cellOf r c dir i).1 (cellOf r c dir i).2 = some '_' ∧
        s1.solutionGrid.read (cellOf r c dir i).1 (cellOf r c dir i).2 = some w[i] := by
  obtain ⟨sol1, pl1, ds, hadd, -, -, hP1, -⟩ := addWord_spec s w cl r c dir hs hstart
  refine ⟨_, ds, hadd, ?_⟩
  intro i h
  have hin : InGrid s.rows s.cols (cellOf r c dir i).1 (cellOf r c dir i).2 := by
    rw [inGrid_cellOf_iff dir i ⟨hstart.1, hstart.2.1⟩ ⟨hstart.2.2.1, hstart.2.2.2⟩]
    split at hfit <;> simp_all <;> omega
  obtain ⟨e1, e2⟩ := hP1 i w[i] (List.getElem?_eq_getElem h) hin
  exact ⟨e2, e1⟩

/-- C1, the scenario of the specification: on the fresh 10x10 grid, `"CPU"` at
`(1, 1)` Across gives `'C'`, `'P'`, `'U'` at `(1,1)`, `(1,2)`, `(1,3)` of the
solution grid, the same three cells fillable, no diagnostic and number 1. -/
theorem addWord_fits_places_every_letter_witness :
    (game0.GridsOk ∧ InGrid game0.rows game0.cols 1 1) ∧
    (∃ s1 ds, game0.addWord ['C', 'P', 'U'] [] 1 1 'A' = some (s1, ds) ∧
      ∀ (i : Nat) (h : i < ['C', 'P', 'U'].length),
        s1.playerGrid.read (cellOf 1 1 'A' i).1 (cellOf 1 1 'A' i).2 = some '_' ∧
        s1.solutionGrid.read (cellOf 1 1 'A' i).1 (cellOf 1 1 'A' i).2 =
          some (['C', 'P', 'U'][i])) ∧
    (game0.addWord ['C', 'P', 'U'] [] 1 1 'A').map
        (fun p => ([p.1.solutionGrid.read 1 1, p.1.solutionGrid.read 1 2,
                    p.1.solutionGrid.read 1 3],
                   [p.1.playerGrid.read 1 1, p.1.playerGrid.read 1 2, p.1.playerGrid.read 1 3],
                   p.1.words.map WordInfo.number, p.2)) =
      some ([some 'C', some 'P', some 'U'], [some '_', some '_', some '_'], [1], []) :=
  ⟨⟨by decide, by decide⟩,
   addWord_fits_places_every_letter game0 ['C', 'P', 'U'] [] 1 1 'A'
     (by decide) (by decide) (by decide),
   by decide⟩

/-- C2. For a placement with an in-bounds start, the number of conflict
diagnostics equals the number of letters `(i, w[i])` whose cell lies in the grid
and held, before the call, a character that is neither `'#'` nor `w[i]`
(`clash`; it is `false` for a cell outside the grid).  So there is none when
every covered cell held `'#'` or the letter itself.  After the call every
covered in-bounds cell holds the letter of the new word. -/
theorem addWord_conflicts_counted (s : Crossword) (w cl : List Char) (r c : Int)
    (dir : Char) (hs : s.GridsOk) (hstart : InGrid s.rows s.cols r c) :
    ∃ s1 ds, s.addWord w cl r c dir = some (s1, ds) ∧
      ds.countP Diag.isConflict =
        (List.enumFrom 0 w).countP
          (fun p => clash s.solutionGrid (cellOf r c dir p.1) p.2) ∧
      ((∀ (i : Nat) (h : i < w.length) (old : Char),
          s.solutionGrid.read (cellOf r c dir i).1 (cellOf r c dir i).2 = some old →
          old = '#' ∨ old = w[i]) →
        ds.countP Diag.isConflict = 0) ∧
      ∀ (i : Nat) (h : i < w.length),
        InGrid s.rows s.cols (cellOf r c dir i).1 (cellOf r c dir i).2 →
        s1.solutionGrid.read (cellOf r c dir i).1 (cellOf r c dir i).2 = some w[i] := by
  obtain ⟨sol1, pl1, ds, hadd, -, -, hP1, -, hP3, -⟩ := addWord_spec s w cl r c dir hs hstart
  refine ⟨_, ds, hadd, hP3, ?_, ?_⟩
  · intro hmatch
    rw [hP3, List.countP_eq_zero]
    rintro ⟨i, ch⟩ hmem
    have hget : w[i]? = some ch := by
      have := (@List.mk_mem_enumFrom_iff_le_and_getElem?_sub Char 0 i ch w).1 hmem
      simpa using this.2
    obtain ⟨hi, rfl⟩ := List.getElem?_eq_some_iff.1 hget
    cases hread : s.solutionGrid.read (cellOf r c dir i).1 (cellOf r c dir i).2 with
    | none => simp [clash, hread]
    | some old =>
      rcases hmatch i hi old hread with h | h <;> simp [clash, hread, h]
  · intro i h hin
    exact (hP1 i w[i] (List.getElem?_eq_getElem h) hin).1

/-- C2, the scenario of the specification: `"API"` at `(0, 5)` Down, then
`"XYZ"` at `(0, 5)` Across: exactly one conflict diagnostic, for the cell
`(0, 5)` that held `'A'`, and `(0, 5)` then holds `'X'`. -/
theorem addWord_conflicts_counted_witness :
    (gameApi.GridsOk ∧ InGrid gameApi.rows gameApi.cols 0 5) ∧
    (∃ s1 ds, gameApi.addWord ['X', 'Y', 'Z'] [] 0 5 'A' = some (s1, ds) ∧
      ds.countP Diag.isConflict =
        (List.enumFrom 0 ['X', 'Y', 'Z']).countP
          (fun p => clash gameApi.solutionGrid (cellOf 0 5 'A' p.1) p.2) ∧
      ((∀ (i : Nat) (h : i < ['X', 'Y', 'Z'].length) (old : Char),
          gameApi.solutionGrid.read (cellOf 0 5 'A' i).1 (cellOf 0 5 'A' i).2 = some old →
          old = '#' ∨ old = (['X', 'Y', 'Z'][i])) →
        ds.countP Diag.isConflict = 0) ∧
      ∀ (i : Nat) (h : i < ['X', 'Y', 'Z'].length),
        InGrid gameApi.rows gameApi.cols (cellOf 0 5 'A' i).1 (cellOf 0 5 'A' i).2 →
        s1.solutionGrid.read (cellOf 0 5 'A' i).1 (cellOf 0 5 'A' i).2 =
          some (['X', 'Y', 'Z'][i])) ∧
    game0.addWord "API".toList "Interface for software interaction".toList 0 5 'D' =
      some (gameApi, []) ∧
    (gameApi.addWord ['X', 'Y', 'Z'] [] 0 5 'A').map
        (fun p => (p.2, p.1.solutionGrid.read 0 5)) =
      some ([Diag.conflict ['X', 'Y', 'Z'] 0 5 'A'], some 'X') :=
  ⟨⟨by decide, by decide⟩,
   addWord_conflicts_counted gameApi ['X', 'Y', 'Z'] [] 0 5 'A' (by decide) (by decide),
   by decide, by decide⟩

/-- C3. For a placement whose start is in bounds but whose span runs past the
edge, `addWord` returns having written exactly the first `room` letters (the
in-bounds prefix): those cells hold the word's letters in the solution grid and
are fillable in the player grid, every other cell of both grids is as before,
and exactly one out-of-bounds diagnostic is written. -/
theorem addWord_overflow_writes_prefix (s : Crossword) (w cl : List Char) (r c : Int)
    (dir : Char) (hs : s.GridsOk) (hstart : InGrid s.rows s.cols r c)
    (hover : if dir = 'A' then s.cols < c + (w.length : Int)
      else s.rows < r + (w.length : Int)) :
    ∃ s1 ds, s.addWord w cl r c dir = some (s1, ds) ∧
      s.room r c dir < w.length ∧
      (∀ (i : Nat) (h : i < w.length), i < s.room r c dir →
        s1.solutionGrid.read (cellOf r c dir i).1 (cellOf r c dir i).2 = some w[i] ∧
        s1.playerGrid.read (cellOf r c dir i).1 (cellOf r c dir i).2 = some '_') ∧
      (∀ a b, (∀ i, i < s.room r c dir → cellOf r c dir i ≠ (a, b)) →
        s1.solutionGrid.read a b = s.solutionGrid.read a b ∧
        s1.playerGrid.read a b = s.playerGrid.read a b) ∧
      ds.filter Diag.isOutOfBounds = [overflowDiag w dir] := by
  obtain ⟨sol1, pl1, ds, hadd, -, -, hP1, hP2, -, -, hP5⟩ :=
    addWord_spec s w cl r c dir hs hstart
  have hr : 0 ≤ r ∧ r < s.rows := ⟨hstart.1, hstart.2.1⟩
  have hc : 0 ≤ c ∧ c < s.cols := ⟨hstart.2.2.1, hstart.2.2.2⟩
  have hroom : ∀ i : Nat,
      InGrid s.rows s.cols (cellOf r c dir i).1 (cellOf r c dir i).2 ↔ i < s.room r c dir := by
    intro i
    rw [inGrid_cellOf_iff dir i hr hc]
    unfold Crossword.room
    split <;> omega
  have hlt : s.room r c dir < w.length := by
    unfold Crossword.room
    split at hover <;> simp_all <;> omega
  refine ⟨_, ds, hadd, hlt, ?_, ?_, ?_⟩
  · intro i h hi
    exact hP1 i w[i] (List.getElem?_eq_getElem h) ((hroom i).2 hi)
  · intro a b hab
    exact hP2 a b (fun j _ hjin => hab j ((hroom j).1 hjin))
  · exact hP5 ⟨s.room r c dir, hlt, fun h => absurd ((hroom _).1 h) (Nat.lt_irrefl _)⟩

/-- C3, the scenario of the specification: a 6-letter word Across from column 6
of the 10-column grid fills columns 6..9 with its first four letters and writes
the out-of-bounds diagnostic. -/
theorem addWord_overflow_writes_prefix_witness :
    (game0.GridsOk ∧ InGrid game0.rows game0.cols 2 6) ∧
    (∃ s1 ds, game0.addWord "LINKER".toList [] 2 6 'A' = some (s1, ds) ∧
      game0.room 2 6 'A' < "LINKER".toList.length ∧
      (∀ (i : Nat) (h : i < "LINKER".toList.length), i < game0.room 2 6 'A' →
        s1.solutionGrid.read (cellOf 2 6 'A' i).1 (cellOf 2 6 'A' i).2 =
          some ("LINKER".toList[i]) ∧
        s1.playerGrid.read (cellOf 2 6 'A' i).1 (cellOf 2 6 'A' i).2 = some '_') ∧
      (∀ a b, (∀ i, i < game0.room 2 6 'A' → cellOf 2 6 'A' i ≠ (a, b)) →
        s1.solutionGrid.read a b = game0.solutionGrid.read a b ∧
        s1.playerGrid.read a b = game0.playerGrid.read a b) ∧
      ds.filter Diag.isOutOfBounds = [overflowDiag "LINKER".toList 'A']) ∧
    game0.room 2 6 'A' = 4 ∧
    (game0.addWord "LINKER".toList [] 2 6 'A').map
        (fun p => (p.1.solutionGrid[2]?, p.1.playerGrid[2]?, p.2)) =
      some (some "######LINK".toList, some "######____".toList,
        [Diag.acrossOutOfBounds "LINKER".toList]) :=
  ⟨⟨by decide, by decide⟩,
   addWord_overflow_writes_prefix game0 "LINKER".toList [] 2 6 'A'
     (by decide) (by decide) (by decide),
   by decide, by decide⟩

/-- C4. A placement whose starting position is out of bounds (`r < 0`, `c < 0`,
`r ≥ rows` or `c ≥ cols`) returns with the solution, player and display grids
(indeed the whole state) unchanged, and writes exactly one diagnostic, the
out-of-bounds one for the start; it writes no conflict diagnostic. -/
theorem addWord_start_out_of_bounds_is_noop (s : Crossword) (w cl : List Char) (r c : Int)
    (dir : Char) (hstart : r < 0 ∨ c < 0 ∨ r ≥ s.rows ∨ c ≥ s.cols) :
    ∃ s1 ds, s.addWord w cl r c dir = some (s1, ds) ∧
      s1.solutionGrid = s.solutionGrid ∧ s1.playerGrid = s.playerGrid ∧
      s1.numberedPlayerGrid = s.numberedPlayerGrid ∧ s1 = s ∧
      ds = [Diag.startOutOfBounds w r c] ∧
      ds.countP Diag.isOutOfBounds = 1 ∧ ds.countP Diag.isConflict = 0 := by
  have hout : ¬ InGrid s.rows s.cols r c := by unfold InGrid; omega
  exact ⟨s, _, addWord_of_start_outside s w cl r c dir hout, rfl, rfl, rfl, rfl, rfl, rfl, rfl⟩

/-- C4 at a concrete input: `"CPU"` at `(1, 10)` on the state that already holds
`"API"`. -/
theorem addWord_start_out_of_bounds_is_noop_witness :
    ((1 : Int) < 0 ∨ (10 : Int) < 0 ∨ (1 : Int) ≥ gameApi.rows ∨ (10 : Int) ≥ gameApi.cols) ∧
    ∃ s1 ds, gameApi.addWord "CPU".toList [] 1 10 'A' = some (s1, ds) ∧
      s1.solutionGrid = gameApi.solutionGrid ∧ s1.playerGrid = gameApi.playerGrid ∧
      s1.numberedPlayerGrid = gameApi.numberedPlayerGrid ∧ s1 = gameApi ∧
      ds = [Diag.startOutOfBounds "CPU".toList 1 10] ∧
      ds.countP Diag.isOutOfBounds = 1 ∧ ds.countP Diag.isConflict = 0 :=
  ⟨by decide, addWord_start_out_of_bounds_is_noop gameApi "CPU".toList [] 1 10 'A' (by decide)⟩

/-- C5 fails as stated: on the fresh 10x10 grid the call
`addWord("CPU", "", 10, 0, 'A')`, whose start row is out of bounds, returns
with the counter still 0 and the word list still empty; it neither increments
the counter nor appends an entry. -/
theorem addWord_start_out_not_recorded :
    game0.addWord "CPU".toList [] 10 0 'A' =
      some (game0, [Diag.startOutOfBounds "CPU".toList 10 0]) ∧
    game0.currentWordNumber = 0 ∧ game0.words = [] ∧
    ¬ ∃ s1 ds, game0.addWord "CPU".toList [] 10 0 'A' = some (s1, ds) ∧
        s1.currentWordNumber = game0.currentWordNumber + 1 ∧
        s1.words.length = game0.words.length + 1 := by
  have hcall : game0.addWord "CPU".toList [] 10 0 'A' =
      some (game0, [Diag.startOutOfBounds "CPU".toList 10 0]) := by decide
  refine ⟨hcall, rfl, rfl, ?_⟩
  rintro ⟨s1, ds, h, hnum, -⟩
  rw [hcall] at h
  simp only [Option.some.injEq, Prod.mk.injEq] at h
  obtain ⟨rfl, -⟩ := h
  exact absurd hnum (by decide)

/-- C5, amended. After any sequence of calls on a freshly constructed grid, the
word list holds exactly the placements whose start was in bounds, in call
order, the entry at index `i` carries the number `i + 1`, and the counter is
the length of the list.  From such a state, a further `addWord` call with an
in-bounds start increments the counter and appends the entry for its
arguments under the new number; a call with an out-of-bounds start changes
neither the counter nor the word list. -/
theorem addWord_records_in_bounds_calls (rows cols : Int) (s0 : Crossword) (ops : List Op)
    (h0 : Crossword.construct rows cols = some s0) :
    ∃ s ds, s0.run ops = some (s, ds) ∧
      s.words.map WordInfo.args = recordedCalls rows cols ops ∧
      (∀ (i : Nat) (h : i < s.words.length), (s.words[i]).number = (i : Int) + 1) ∧
      s.currentWordNumber = (s.words.length : Int) ∧
      ∀ (w cl : List Char) (r c : Int) (dir : Char),
        ∃ s1 ds1, s.addWord w cl r c dir = some (s1, ds1) ∧
          (InGrid rows cols r c →
            s1.currentWordNumber = s.currentWordNumber + 1 ∧
            s1.words = s.words ++ [{ word := w, clue := cl, row := r, col := c,
                                     direction := dir, number := s.currentWordNumber + 1 }]) ∧
          (¬ InGrid rows cols r c →
            s1.currentWordNumber = s.currentWordNumber ∧ s1.words = s.words) := by
  obtain ⟨hwf, hr0, hc0⟩ := wellFormed_construct h0
  have hN0 : s0.Numbered := by
    unfold Crossword.construct at h0
    split at h0
    · cases h0
    · simp only [Option.some.injEq] at h0
      subst h0
      exact ⟨rfl, fun i h => absurd h (by simp)⟩
  obtain ⟨s, ds, hrun, hs, hN, hr, hc⟩ :=
    run_invariant Crossword.Numbered (fun _ => True) numbered_step ops s0
      (fun _ _ => trivial) hwf hN0
  obtain ⟨s', ds', hrun', hrec⟩ := run_records ops s0 hwf
  rw [hrun] at hrun'
  simp only [Option.some.injEq, Prod.mk.injEq] at hrun'
  obtain ⟨rfl, rfl⟩ := hrun'
  have e0 : s0.words = [] := by
    unfold Crossword.construct at h0
    split at h0
    · cases h0
    · simp only [Option.some.injEq] at h0
      subst h0
      rfl
  rw [e0, hr0, hc0] at hrec
  rw [hr0] at hr
  rw [hc0] at hc
  refine ⟨s, ds, hrun, by simpa using hrec, hN.2, hN.1, ?_⟩
  intro w cl r c dir
  obtain ⟨s1, ds1, hstep, -⟩ := step_wellFormed s (Op.add w cl r c dir) hs
  have hw := step_words s (Op.add w cl r c dir) hs hstep
  simp only [hr, hc] at hw
  refine ⟨s1, ds1, hstep, ?_, ?_⟩
  · intro hin
    simp only [hin, if_true] at hw
    exact ⟨hw.2, hw.1⟩
  · intro hout
    simp only [hout, if_false] at hw
    subst hw
    exact ⟨rfl, rfl⟩

/-- C5, amended, on the fresh 10x10 grid with the calls `sampleCalls`: two of the
three placements are recorded, under the numbers 1 and 2. -/
theorem addWord_records_in_bounds_calls_witness :
    Crossword.construct 10 10 = some game0 ∧
    (∃ s ds, game0.run sampleCalls = some (s, ds) ∧
      s.words.map WordInfo.args = recordedCalls 10 10 sampleCalls ∧
      (∀ (i : Nat) (h : i < s.words.length), (s.words[i]).number = (i : Int) + 1) ∧
      s.currentWordNumber = (s.words.length : Int) ∧
      ∀ (w cl : List Char) (r c : Int) (dir : Char),
        ∃ s1 ds1, s.addWord w cl r c dir = some (s1, ds1) ∧
          (InGrid 10 10 r c →
            s1.currentWordNumber = s.currentWordNumber + 1 ∧
            s1.words = s.words ++ [{ word := w, clue := cl, row := r, col := c,
                                     direction := dir, number := s.currentWordNumber + 1 }]) ∧
          (¬ InGrid 10 10 r c →
            s1.currentWordNumber = s.currentWordNumber ∧ s1.words = s.words)) ∧
    (game0.run sampleCalls).map (fun p => (p.1.words.map WordInfo.number,
        p.1.words.map WordInfo.word, p.1.currentWordNumber)) =
      some ([1, 2], ["API".toList, "XYZ".toList], 2) :=
  ⟨by decide, addWord_records_in_bounds_calls 10 10 game0 sampleCalls (by decide), by decide⟩

/-- C6. From a freshly constructed grid, every sequence of `addWord` and
`preparePlayerGridWithNumbers` calls returns, and in the state reached the
entry at index `i` of the word list carries the number `i + 1`, the counter
equals the length of the list, and the numbers are strictly increasing in list
order (so no two entries share a number, wherever they start). -/
theorem word_numbers_count_up (rows cols : Int) (s0 : Crossword) (ops : List Op)
    (h0 : Crossword.construct rows cols = some s0) :
    ∃ s ds, s0.run ops = some (s, ds) ∧
      (∀ (i : Nat) (h : i < s.words.length), (s.words[i]).number = (i : Int) + 1) ∧
      s.currentWordNumber = (s.words.length : Int) ∧
      (s.words.map WordInfo.number).Pairwise (fun m n => m < n) := by
  obtain ⟨hwf, -, -⟩ := wellFormed_construct h0
  have hN0 : s0.Numbered := by
    unfold Crossword.construct at h0
    split at h0
    · cases h0
    · simp only [Option.some.injEq] at h0
      subst h0
      exact ⟨rfl, fun i h => absurd h (by simp)⟩
  obtain ⟨s, ds, hrun, -, hN, -, -⟩ :=
    run_invariant Crossword.Numbered (fun _ => True) numbered_step ops s0
      (fun _ _ => trivial) hwf hN0
  refine ⟨s, ds, hrun, hN.2, hN.1, ?_⟩
  rw [List.pairwise_iff_getElem]
  intro i j hi hj hij
  simp only [List.length_map] at hi hj
  simp only [List.getElem_map, hN.2 i hi, hN.2 j hj]
  omega

/-- C6 on the fresh 10x10 grid with the calls `sampleCalls`; the two recorded
words start at the same cell `(0, 5)` and carry the numbers 1 and 2. -/
theorem word_numbers_count_up_witness :
    Crossword.construct 10 10 = some game0 ∧
    (∃ s ds, game0.run sampleCalls = some (s, ds) ∧
      (∀ (i : Nat) (h : i < s.words.length), (s.words[i]).number = (i : Int) + 1) ∧
      s.currentWordNumber = (s.words.length : Int) ∧
      (s.words.map WordInfo.number).Pairwise (fun m n => m < n)) ∧
    (game0.run sampleCalls).map (fun p =>
        p.1.words.map (fun e => (e.row, e.col, e.number))) =
      some [(0, 5, 1), (0, 5, 2)] :=
  ⟨by decide, word_numbers_count_up 10 10 game0 sampleCalls (by decide), by decide⟩

/-- C7. On a well-formed state `preparePlayerGridWithNumbers` returns, and for
every cell of the grid: a blocked player cell shows `"###"`; a fillable cell at
which no recorded word starts shows `" _ "`; a fillable cell at which a
recorded word starts shows the label of such a word's number (of the one
recorded last, when several start there), and for a number `n ≥ 0` that label is
`" n "` for one digit, `"nn "` for two digits and the first three decimal
digits otherwise (`specLabel`). -/
theorem prepare_display_cells (s : Crossword) (hs : s.WellFormed) :
    ∃ s1, s.preparePlayerGridWithNumbers = some s1 ∧
      ∀ a b, InGrid s.rows s.cols a b →
        (s.playerGrid.read a b = some '#' →
          s1.numberedPlayerGrid.read a b = some ['#', '#', '#']) ∧
        (s.playerGrid.read a b = some '_' →
          (∀ e ∈ s.words, ¬ (e.row = a ∧ e.col = b)) →
          s1.numberedPlayerGrid.read a b = some [' ', '_', ' ']) ∧
        (s.playerGrid.read a b = some '_' →
          (∃ e ∈ s.words, e.row = a ∧ e.col = b) →
          ∃ pre e post, s.words = pre ++ e :: post ∧ (e.row = a ∧ e.col = b) ∧
            (∀ e1 ∈ post, ¬ (e1.row = a ∧ e1.col = b)) ∧
            s1.numberedPlayerGrid.read a b = some (numberLabel e.number) ∧
            (0 ≤ e.number → numberLabel e.number = specLabel e.number.toNat)) := by
  obtain ⟨n1, hprep, -, hcells⟩ := prepare_spec s hs
  refine ⟨_, hprep, ?_⟩
  intro a b hin
  obtain ⟨p, hp, hread⟩ := hcells a b hin
  refine ⟨?_, ?_, ?_⟩
  · intro hblocked
    rw [hp] at hblocked
    simp only [Option.some.injEq] at hblocked
    subst hblocked
    show n1.read a b = _
    rw [hread]
    cases lastStartingAt s.words a b <;> simp [expectedCell, blankCell]
  · intro hfill hnone
    rw [hp] at hfill
    simp only [Option.some.injEq] at hfill
    subst hfill
    show n1.read a b = _
    rw [hread, (lastStartingAt_eq_none_iff s.words a b).2 hnone]
    simp [expectedCell, blankCell]
  · intro hfill hsome
    rw [hp] at hfill
    simp only [Option.some.injEq] at hfill
    subst hfill
    cases hl : lastStartingAt s.words a b with
    | none =>
      obtain ⟨e, he, hat⟩ := hsome
      exact absurd hat ((lastStartingAt_eq_none_iff s.words a b).1 hl e he)
    | some e =>
      obtain ⟨pre, post, hw, hat, hpost⟩ := (lastStartingAt_eq_some_iff s.words a b e).1 hl
      refine ⟨pre, e, post, hw, hat, hpost, ?_, ?_⟩
      · show n1.read a b = _
        rw [hread, hl]
        simp [expectedCell]
      · intro hnum
        have := (numberLabel_eq_specLabel e.number.toNat).1
        rwa [Int.toNat_of_nonneg hnum] at this

/-- C7 on the 10x10 state that holds `"API"` Down from `(0, 5)`: a well-formed
state, with the three kinds of cell evaluated: `(0, 0)` blocked, `(1, 5)`
fillable with no word starting there, `(0, 5)` the start of word 1. -/
theorem prepare_display_cells_witness :
    gameApi.WellFormed ∧
    (∃ s1, gameApi.preparePlayerGridWithNumbers = some s1 ∧
      ∀ a b, InGrid gameApi.rows gameApi.cols a b →
        (gameApi.playerGrid.read a b = some '#' →
          s1.numberedPlayerGrid.read a b = some ['#', '#', '#']) ∧
        (gameApi.playerGrid.read a b = some '_' →
          (∀ e ∈ gameApi.words, ¬ (e.row = a ∧ e.col = b)) →
          s1.numberedPlayerGrid.read a b = some [' ', '_', ' ']) ∧
        (gameApi.playerGrid.read a b = some '_' →
          (∃ e ∈ gameApi.words, e.row = a ∧ e.col = b) →
          ∃ pre e post, gameApi.words = pre ++ e :: post ∧ (e.row = a ∧ e.col = b) ∧
            (∀ e1 ∈ post, ¬ (e1.row = a ∧ e1.col = b)) ∧
            s1.numberedPlayerGrid.read a b = some (numberLabel e.number) ∧
            (0 ≤ e.number → numberLabel e.number = specLabel e.number.toNat))) ∧
    gameApi.preparePlayerGridWithNumbers.map
        (fun s1 => [s1.numberedPlayerGrid.read 0 0, s1.numberedPlayerGrid.read 1 5,
                    s1.numberedPlayerGrid.read 0 5]) =
      some [some "###".toList, some " _ ".toList, some " 1 ".toList] ∧
    [numberLabel 7, numberLabel 42, numberLabel 100, numberLabel 1234] =
      [" 7 ".toList, "42 ".toList, "100".toList, "123".toList] :=
  ⟨by decide, prepare_display_cells gameApi (by decide), by decide, by decide⟩

/-- C8. On a well-formed state: (1) when the word list is `pre ++ e :: post`,
no word of `post` starts at the start cell of `e` and that cell is fillable,
then after `preparePlayerGridWithNumbers` the cell shows the label of the
number of `e`, whatever words of `pre` start there too; (2) placing a non-empty
word at an in-bounds start `(r, c)` and then calling
`preparePlayerGridWithNumbers` makes display cell `(r, c)` show the label of
the new word's number, whatever the cell showed before. -/
theorem prepare_last_word_wins (s : Crossword) (hs : s.WellFormed) :
    (∀ pre e post, s.words = pre ++ e :: post →
      (∀ e1 ∈ post, ¬ (e1.row = e.row ∧ e1.col = e.col)) →
      s.playerGrid.read e.row e.col = some '_' →
      ∃ s1, s.preparePlayerGridWithNumbers = some s1 ∧
        s1.numberedPlayerGrid.read e.row e.col = some (numberLabel e.number)) ∧
    (∀ (w cl : List Char) (r c : Int) (dir : Char), w ≠ [] → InGrid s.rows s.cols r c →
      ∃ s1 ds s2, s.addWord w cl r c dir = some (s1, ds) ∧
        s1.preparePlayerGridWithNumbers = some s2 ∧
        s1.currentWordNumber = s.currentWordNumber + 1 ∧
        s2.numberedPlayerGrid.read r c = some (numberLabel (s.currentWordNumber + 1))) := by
  constructor
  · intro pre e post hw hpost hfill
    obtain ⟨n1, hprep, -, hcells⟩ := prepare_spec s hs
    have hin : InGrid s.rows s.cols e.row e.col := hs.2 e (by rw [hw]; simp)
    obtain ⟨p, hp, hread⟩ := hcells e.row e.col hin
    rw [hfill] at hp
    simp only [Option.some.injEq] at hp
    subst hp
    have hlast : lastStartingAt s.words e.row e.col = some e :=
      (lastStartingAt_eq_some_iff s.words e.row e.col e).2 ⟨pre, post, hw, ⟨rfl, rfl⟩, hpost⟩
    refine ⟨_, hprep, ?_⟩
    show n1.read e.row e.col = _
    rw [hread, hlast]
    simp [expectedCell]
  · intro w cl r c dir hne hin
    obtain ⟨sol1, pl1, ds, hadd, hd1, hd2, hP1, -⟩ := addWord_spec s w cl r c dir hs.1 hin
    obtain ⟨s1, ds1, hstep, hs1, hr1, hc1⟩ := step_wellFormed s (Op.add w cl r c dir) hs
    have hsame : s.addWord w cl r c dir = some (s1, ds1) := hstep
    rw [hadd] at hsame
    simp only [Option.some.injEq, Prod.mk.injEq] at hsame
    obtain ⟨hs1eq, -⟩ := hsame
    obtain ⟨n1, hprep, -, hcells⟩ := prepare_spec s1 hs1
    have hin1 : InGrid s1.rows s1.cols r c := by rw [hr1, hc1]; exact hin
    obtain ⟨p, hp, hread⟩ := hcells r c hin1
    obtain ⟨ch, rest, rfl⟩ : ∃ ch rest, w = ch :: rest := by
      cases w with
      | nil => exact absurd rfl hne
      | cons ch rest => exact ⟨ch, rest, rfl⟩
    have hcell0 : cellOf r c dir 0 = (r, c) := by
      unfold cellOf; split <;> simp
    have h0 := hP1 0 ch (by simp) (by rw [hcell0]; exact hin)
    rw [hcell0] at h0
    have hpl : s1.playerGrid.read r c = some '_' := by rw [← hs1eq]; exact h0.2
    rw [hpl] at hp
    simp only [Option.some.injEq] at hp
    subst hp
    have hlast : lastStartingAt s1.words r c =
        some { word := ch :: rest, clue := cl, row := r, col := c, direction := dir,
               number := s.currentWordNumber + 1 } := by
      rw [← hs1eq]
      exact (lastStartingAt_eq_some_iff _ r c _).2 ⟨s.words, [], by simp, ⟨rfl, rfl⟩, by simp⟩
    refine ⟨s1, ds, _, by rw [hadd, hs1eq], hprep, by rw [← hs1eq], ?_⟩
    show n1.read r c = _
    rw [hread, hlast]
    simp [expectedCell]

/-- C8 on the 10x10 state with `"API"` Down and `"XYZ"` Across both starting at
`(0, 5)`, whose display grid still shows `" 1 "` there: the numbering pass
shows `" 2 "`, and placing a third word `"UP"` there and numbering again shows
`" 3 "`. -/
theorem prepare_last_word_wins_witness :
    gameTwoStarts.WellFormed ∧
    ((∀ pre e post, gameTwoStarts.words = pre ++ e :: post →
      (∀ e1 ∈ post, ¬ (e1.row = e.row ∧ e1.col = e.col)) →
      gameTwoStarts.playerGrid.read e.row e.col = some '_' →
      ∃ s1, gameTwoStarts.preparePlayerGridWithNumbers = some s1 ∧
        s1.numberedPlayerGrid.read e.row e.col = some (numberLabel e.number)) ∧
    (∀ (w cl : List Char) (r c : Int) (dir : Char), w ≠ [] →
      InGrid gameTwoStarts.rows gameTwoStarts.cols r c →
      ∃ s1 ds s2, gameTwoStarts.addWord w cl r c dir = some (s1, ds) ∧
        s1.preparePlayerGridWithNumbers = some s2 ∧
        s1.currentWordNumber = gameTwoStarts.currentWordNumber + 1 ∧
        s2.numberedPlayerGrid.read r c =
          some (numberLabel (gameTwoStarts.currentWordNumber + 1)))) ∧
    game0.run [Op.add "API".toList [] 0 5 'D', Op.prepare, Op.add "XYZ".toList [] 0 5 'A'] =
      some (gameTwoStarts, [Diag.conflict "XYZ".toList 0 5 'A']) ∧
    gameTwoStarts.numberedPlayerGrid.read 0 5 = some " 1 ".toList ∧
    gameTwoStarts.preparePlayerGridWithNumbers.map (fun s1 => s1.numberedPlayerGrid.read 0 5) =
      some (some " 2 ".toList) ∧
    ((gameTwoStarts.addWord "UP".toList [] 0 5 'D').bind
        (fun p => p.1.preparePlayerGridWithNumbers)).map
        (fun s2 => s2.numberedPlayerGrid.read 0 5) =
      some (some " 3 ".toList) :=
  ⟨by decide, prepare_last_word_wins gameTwoStarts (by decide), by decide, by decide,
   by decide, by decide⟩

/-- C9. On a well-formed state `preparePlayerGridWithNumbers` returns a state
`s1` such that: running it again on `s1` gives `s1` (idempotent); `s1` is `s`
with only the display grid replaced; starting from any other display grid of
the same dimensions gives the same `s1`; and any well-formed state with the
same dimensions, player grid and word list gets the same display grid. -/
theorem prepare_idempotent_recompute (s : Crossword) (hs : s.WellFormed) :
    ∃ s1, s.preparePlayerGridWithNumbers = some s1 ∧
      s1.preparePlayerGridWithNumbers = some s1 ∧
      s1 = { s with numberedPlayerGrid := s1.numberedPlayerGrid } ∧
      (∀ g : Grid (List Char), g.HasDims s.rows s.cols →
        Crossword.preparePlayerGridWithNumbers { s with numberedPlayerGrid := g } = some s1) ∧
      (∀ t : Crossword, t.WellFormed → t.rows = s.rows → t.cols = s.cols →
        t.playerGrid = s.playerGrid → t.words = s.words →
        ∃ t1, t.preparePlayerGridWithNumbers = some t1 ∧
          t1.numberedPlayerGrid = s1.numberedPlayerGrid) := by
  obtain ⟨n1, hprep, hd1, hcells⟩ := prepare_spec s hs
  have key : ∀ t : Crossword, t.WellFormed → t.rows = s.rows → t.cols = s.cols →
      t.playerGrid = s.playerGrid → t.words = s.words →
      t.preparePlayerGridWithNumbers = some { t with numberedPlayerGrid := n1 } := by
    intro t ht hr hc hp hw
    obtain ⟨m1, htprep, htd, htcells⟩ := prepare_spec t ht
    have hm : m1 = n1 := by
      rw [hr, hc] at htd
      apply Grid.ext_read htd hd1
      intro a b hin
      obtain ⟨p, hp1, hread⟩ := hcells a b hin
      obtain ⟨q, hq1, hreadt⟩ := htcells a b (by rw [hr, hc]; exact hin)
      rw [hp, hp1] at hq1
      simp only [Option.some.injEq] at hq1
      subst hq1
      rw [hread, hreadt, hw]
    rw [htprep, hm]
  refine ⟨_, hprep, ?_, rfl, ?_, ?_⟩
  · exact key { s with numberedPlayerGrid := n1 } ⟨⟨hs.1.1, hs.1.2.1, hd1⟩, hs.2⟩
      rfl rfl rfl rfl
  · intro g hg
    exact key { s with numberedPlayerGrid := g } ⟨⟨hs.1.1, hs.1.2.1, hg⟩, hs.2⟩ rfl rfl rfl rfl
  · intro t ht hr hc hp hw
    exact ⟨_, key t ht hr hc hp hw, rfl⟩

/-- C9 on the 10x10 state with two words starting at `(0, 5)` and a stale
display grid. -/
theorem prepare_idempotent_recompute_witness :
    gameTwoStarts.WellFormed ∧
    (∃ s1, gameTwoStarts.preparePlayerGridWithNumbers = some s1 ∧
      s1.preparePlayerGridWithNumbers = some s1 ∧
      s1 = { gameTwoStarts with numberedPlayerGrid := s1.numberedPlayerGrid } ∧
      (∀ g : Grid (List Char), g.HasDims gameTwoStarts.rows gameTwoStarts.cols →
        Crossword.preparePlayerGridWithNumbers { gameTwoStarts with numberedPlayerGrid := g } =
          some s1) ∧
      (∀ t : Crossword, t.WellFormed → t.rows = gameTwoStarts.rows →
        t.cols = gameTwoStarts.cols →
        t.playerGrid = gameTwoStarts.playerGrid → t.words = gameTwoStarts.words →
        ∃ t1, t.preparePlayerGridWithNumbers = some t1 ∧
          t1.numberedPlayerGrid = s1.numberedPlayerGrid)) ∧
    (gameTwoStarts.preparePlayerGridWithNumbers.bind
        Crossword.preparePlayerGridWithNumbers) = gameTwoStarts.preparePlayerGridWithNumbers ∧
    gameTwoStarts.preparePlayerGridWithNumbers.isSome = true :=
  ⟨by decide, prepare_idempotent_recompute gameTwoStarts (by decide), by decide, by decide⟩

/-- C10. From a freshly constructed grid, every sequence of calls that places
no word containing `'#'` returns, and in the state reached, for every cell of
the grid, the solution grid holds a character other than `'#'` if and only if
the player grid holds `'_'`; the player grid holds nothing but `'#'` and `'_'`. -/
theorem solution_letter_iff_fillable (rows cols : Int) (s0 : Crossword) (ops : List Op)
    (h0 : Crossword.construct rows cols = some s0)
    (hops : ∀ op ∈ ops, op.avoidsMarker = true) :
    ∃ s ds, s0.run ops = some (s, ds) ∧
      ∀ a b, InGrid rows cols a b →
        ∃ ch p, s.solutionGrid.read a b = some ch ∧ s.playerGrid.read a b = some p ∧
          (ch ≠ '#' ↔ p = '_') ∧ (p = '#' ∨ p = '_') := by
  obtain ⟨hwf, hr0, hc0⟩ := wellFormed_construct h0
  have hL0 : s0.LettersMatch := by
    unfold Crossword.construct at h0
    split at h0
    · cases h0
    · simp only [Option.some.injEq] at h0
      subst h0
      intro a b ch p hch hp
      have e1 := read_replicate hch
      have e2 := read_replicate hp
      subst e1 e2
      exact ⟨⟨fun h => absurd rfl h, fun h => absurd h (by decide)⟩, Or.inl rfl⟩
  obtain ⟨s, ds, hrun, hs, hL, hr, hc⟩ :=
    run_invariant Crossword.LettersMatch (fun op => op.avoidsMarker = true) lettersMatch_step
      ops s0 hops hwf hL0
  refine ⟨s, ds, hrun, ?_⟩
  intro a b hin
  have hin1 : InGrid s.rows s.cols a b := by rw [hr, hc, hr0, hc0]; exact hin
  obtain ⟨ch, hch⟩ := Grid.read_eq_some_of_inGrid hs.1.1 hin1
  obtain ⟨p, hp⟩ := Grid.read_eq_some_of_inGrid hs.1.2.1 hin1
  exact ⟨ch, p, hch, hp, hL a b ch p hch hp⟩

/-- C10 on the fresh 10x10 grid with the calls `sampleCalls` (two crossing
words, a rejected placement and a numbering pass). -/
theorem solution_letter_iff_fillable_witness :
    (Crossword.construct 10 10 = some game0 ∧
      ∀ op ∈ sampleCalls, op.avoidsMarker = true) ∧
    (∃ s ds, game0.run sampleCalls = some (s, ds) ∧
      ∀ a b, InGrid 10 10 a b →
        ∃ ch p, s.solutionGrid.read a b = some ch ∧ s.playerGrid.read a b = some p ∧
          (ch ≠ '#' ↔ p = '_') ∧ (p = '#' ∨ p = '_')) ∧
    (game0.run sampleCalls).map (fun p =>
        (p.1.solutionGrid.take 3, p.1.playerGrid.take 3)) =
      some (["#####XYZ##".toList, "#####P####".toList, "#####I####".toList],
            ["#####___##".toList, "#####_####".toList, "#####_####".toList]) :=
  ⟨⟨by decide, by decide⟩,
   solution_letter_iff_fillable 10 10 game0 sampleCalls (by decide) (by decide),
   by decide⟩

/-- C11. For every state, `displayClues` prints, after the title lines, under
`"Across:"` the lines of exactly the recorded entries whose direction is `'A'`,
in list order, and then under `"Down:"` the lines of exactly the entries whose
direction is `'D'`, in list order: two filters of the word list, with no
sorting.  Each line is the entry's number in two columns, `". "`, the clue,
and the length of the word's text.  In a state reached from a freshly
constructed grid by any call sequence, the numbers of the entries listed in
each section are strictly increasing. -/
theorem displayClues_filters_by_direction (rows cols : Int) (s0 : Crossword) (ops : List Op)
    (h0 : Crossword.construct rows cols = some s0) :
    (∀ t : Crossword, t.displayClues =
      ["Clues:".toList, "------".toList, "Across:".toList] ++
        (t.words.filter (fun e => decide (e.direction = 'A'))).map clueLine ++
        [[], "Down:".toList] ++
        (t.words.filter (fun e => decide (e.direction = 'D'))).map clueLine ++ [[]]) ∧
    (∀ e : WordInfo, clueLine e =
      setw 2 (to_string e.number) ++ ". ".toList ++ e.clue ++ " (".toList ++
        Nat.toDigits 10 e.word.length ++ " letters)".toList) ∧
    ∃ s ds, s0.run ops = some (s, ds) ∧
      ((s.words.filter (fun e => decide (e.direction = 'A'))).map WordInfo.number).Pairwise
        (fun m n => m < n) ∧
      ((s.words.filter (fun e => decide (e.direction = 'D'))).map WordInfo.number).Pairwise
        (fun m n => m < n) := by
  refine ⟨?_, fun _ => rfl, ?_⟩
  · intro t
    simp only [Crossword.displayClues, clueLines_eq_filter_map]
  · obtain ⟨hwf, -, -⟩ := wellFormed_construct h0
    have hN0 : s0.Numbered := by
      obtain ⟨-, -, rfl⟩ := construct_inv h0
      exact ⟨rfl, fun i h => absurd h (by simp)⟩
    obtain ⟨s, ds, hrun, -, hN, -, -⟩ :=
      run_invariant Crossword.Numbered (fun _ => True) numbered_step ops s0
        (fun _ _ => trivial) hwf hN0
    have hall : (s.words.map WordInfo.number).Pairwise (fun m n => m < n) := by
      rw [List.pairwise_iff_getElem]
      intro i j hi hj hij
      simp only [List.length_map] at hi hj
      simp only [List.getElem_map, hN.2 i hi, hN.2 j hj]
      omega
    have hsub : ∀ dir : Char,
        ((s.words.filter (fun e => decide (e.direction = dir))).map WordInfo.number).Pairwise
          (fun m n => m < n) := fun dir =>
      List.Pairwise.sublist (List.Sublist.map _ (List.filter_sublist _)) hall
    exact ⟨s, ds, hrun, hsub 'A', hsub 'D'⟩

/-- C11 on the fresh 10x10 grid with the calls of `main`: the Across section
lists the words 1, 2, 4, 7, 8 and the Down section the words 3, 5, 6. -/
theorem displayClues_filters_by_direction_witness :
    Crossword.construct 10 10 = some game0 ∧
    ((∀ t : Crossword, t.displayClues =
      ["Clues:".toList, "------".toList, "Across:".toList] ++
        (t.words.filter (fun e => decide (e.direction = 'A'))).map clueLine ++
        [[], "Down:".toList] ++
        (t.words.filter (fun e => decide (e.direction = 'D'))).map clueLine ++ [[]]) ∧
    (∀ e : WordInfo, clueLine e =
      setw 2 (to_string e.number) ++ ". ".toList ++ e.clue ++ " (".toList ++
        Nat.toDigits 10 e.word.length ++ " letters)".toList) ∧
    ∃ s ds, game0.run mainCalls = some (s, ds) ∧
      ((s.words.filter (fun e => decide (e.direction = 'A'))).map WordInfo.number).Pairwise
        (fun m n => m < n) ∧
      ((s.words.filter (fun e => decide (e.direction = 'D'))).map WordInfo.number).Pairwise
        (fun m n => m < n)) ∧
    (game0.run mainCalls).map (fun p => p.1.displayClues) =
      some ["Clues:".toList, "------".toList, "Across:".toList,
            " 1. Central Processing Unit (3 letters)".toList,
            " 2. Volatile memory (3 letters)".toList,
            " 4. An error in code (3 letters)".toList,
            " 7. Set of program instructions (4 letters)".toList,
            " 8. Represents no value or address (4 letters)".toList,
            [], "Down:".toList,
            " 3. Interface for software interaction (3 letters)".toList,
            " 5. Version control system (3 letters)".toList,
            " 6. Combines object files (6 letters)".toList, []] :=
  ⟨by decide, displayClues_filters_by_direction 10 10 game0 mainCalls (by decide), by decide⟩

/-- C12. For positive `rows` and `cols` the constructor returns a state that
records these dimensions, whose solution, player and display grids each have
exactly `rows` rows of `cols` cells, every cell blocked (`'#'`, `'#'`, `"###"`),
with counter 0 and an empty word list; and after every sequence of `addWord`
and `preparePlayerGridWithNumbers` calls the recorded dimensions and the
dimensions of the three grids are the same. -/
theorem construct_blocked_dimensions_fixed (rows cols : Int) (hr : 0 < rows) (hc : 0 < cols) :
    ∃ s0, Crossword.construct rows cols = some s0 ∧
      s0.rows = rows ∧ s0.cols = cols ∧
      s0.solutionGrid.HasDims rows cols ∧ s0.playerGrid.HasDims rows cols ∧
      s0.numberedPlayerGrid.HasDims rows cols ∧
      (∀ a b, InGrid rows cols a b →
        s0.solutionGrid.read a b = some '#' ∧ s0.playerGrid.read a b = some '#' ∧
        s0.numberedPlayerGrid.read a b = some ['#', '#', '#']) ∧
      s0.currentWordNumber = 0 ∧ s0.words = [] ∧
      ∀ ops : List Op, ∃ s ds, s0.run ops = some (s, ds) ∧
        s.rows = rows ∧ s.cols = cols ∧
        s.solutionGrid.HasDims rows cols ∧ s.playerGrid.HasDims rows cols ∧
        s.numberedPlayerGrid.HasDims rows cols := by
  have hr0 : 0 ≤ rows := by omega
  have hc0 : 0 ≤ cols := by omega
  have hcon := @construct_eq rows cols hr0 hc0
  obtain ⟨hwf, -, -⟩ := wellFormed_construct hcon
  refine ⟨_, hcon, rfl, rfl, hwf.1.1, hwf.1.2.1, hwf.1.2.2, ?_, rfl, rfl, ?_⟩
  · intro a b hin
    exact ⟨read_replicate_of_inGrid '#' hin, read_replicate_of_inGrid '#' hin,
      read_replicate_of_inGrid ['#', '#', '#'] hin⟩
  · intro ops
    obtain ⟨s, ds, hrun, hs, -, hrows, hcols⟩ :=
      run_invariant (fun _ => True) (fun _ => True) (fun _ _ _ _ _ _ _ _ => trivial) ops _
        (fun _ _ => trivial) hwf trivial
    have e1 : s.rows = rows := hrows
    have e2 : s.cols = cols := hcols
    refine ⟨s, ds, hrun, e1, e2, ?_, ?_, ?_⟩
    · rw [← e1, ← e2]; exact hs.1.1
    · rw [← e1, ← e2]; exact hs.1.2.1
    · rw [← e1, ← e2]; exact hs.1.2.2

/-- C12 for the 10x10 grid of the driver and the calls of `main`. -/
theorem construct_blocked_dimensions_fixed_witness :
    ((0 : Int) < 10 ∧ (0 : Int) < 10) ∧
    (∃ s0, Crossword.construct 10 10 = some s0 ∧
      s0.rows = 10 ∧ s0.cols = 10 ∧
      s0.solutionGrid.HasDims 10 10 ∧ s0.playerGrid.HasDims 10 10 ∧
      s0.numberedPlayerGrid.HasDims 10 10 ∧
      (∀ a b, InGrid 10 10 a b →
        s0.solutionGrid.read a b = some '#' ∧ s0.playerGrid.read a b = some '#' ∧
        s0.numberedPlayerGrid.read a b = some ['#', '#', '#']) ∧
      s0.currentWordNumber = 0 ∧ s0.words = [] ∧
      ∀ ops : List Op, ∃ s ds, s0.run ops = some (s, ds) ∧
        s.rows = 10 ∧ s.cols = 10 ∧
        s.solutionGrid.HasDims 10 10 ∧ s.playerGrid.HasDims 10 10 ∧
        s.numberedPlayerGrid.HasDims 10 10) ∧
    (game0.run mainCalls).map (fun p =>
        (p.1.rows, p.1.cols, p.1.solutionGrid.map List.length, p.1.playerGrid.map List.length,
         p.1.numberedPlayerGrid.map List.length)) =
      some (10, 10, List.replicate 10 10, List.replicate 10 10, List.replicate 10 10) :=
  ⟨⟨by decide, by decide⟩, construct_blocked_dimensions_fixed 10 10 (by decide) (by decide),
   by decide⟩

/-- C13. In a state reached from a freshly constructed grid by any call
sequence, a cell of the grid is fillable (`'_'`) in the player grid if and only
if some recorded word covers it, that is, the cell is `cellOf` of the word's
start, direction and an offset below the length of its text; every other cell
is blocked (`'#'`).  A further `addWord` call returns and keeps every fillable
cell fillable. -/
theorem fillable_iff_covered (rows cols : Int) (s0 : Crossword) (ops : List Op)
    (h0 : Crossword.construct rows cols = some s0) :
    ∃ s ds, s0.run ops = some (s, ds) ∧
      (∀ a b, InGrid rows cols a b →
        (s.playerGrid.read a b = some '_' ↔
          ∃ e ∈ s.words, ∃ i, i < e.word.length ∧
            cellOf e.row e.col e.direction i = (a, b)) ∧
        (s.playerGrid.read a b = some '_' ∨ s.playerGrid.read a b = some '#')) ∧
      ∀ (w cl : List Char) (r c : Int) (dir : Char),
        ∃ s1 ds1, s.addWord w cl r c dir = some (s1, ds1) ∧
          ∀ a b, s.playerGrid.read a b = some '_' → s1.playerGrid.read a b = some '_' := by
  obtain ⟨hwf, hr0, hc0⟩ := wellFormed_construct h0
  have hF0 : s0.FillableIsSpan := by
    obtain ⟨-, -, rfl⟩ := construct_inv h0
    intro a b p hp
    have e := read_replicate hp
    subst e
    refine ⟨⟨fun h => absurd h (by decide), ?_⟩, Or.inr rfl⟩
    rintro ⟨e, he, -⟩
    simp at he
  obtain ⟨s, ds, hrun, hs, hF, hr, hc⟩ :=
    run_invariant Crossword.FillableIsSpan (fun _ => True) fillableIsSpan_step ops s0
      (fun _ _ => trivial) hwf hF0
  refine ⟨s, ds, hrun, ?_, ?_⟩
  · intro a b hin
    have hin1 : InGrid s.rows s.cols a b := by rw [hr, hc, hr0, hc0]; exact hin
    obtain ⟨p, hp⟩ := Grid.read_eq_some_of_inGrid hs.1.2.1 hin1
    obtain ⟨hiff, hor⟩ := hF a b p hp
    rw [hp]
    refine ⟨⟨fun h => hiff.1 (by simpa using h), fun h => by rw [hiff.2 h]⟩, ?_⟩
    rcases hor with h | h
    · exact Or.inl (by rw [h])
    · exact Or.inr (by rw [h])
  · intro w cl r c dir
    obtain ⟨s1, ds1, hstep, hs1, -, -⟩ := step_wellFormed s (Op.add w cl r c dir) hs
    refine ⟨s1, ds1, hstep, ?_⟩
    intro a b hfill
    have hF1 := fillableIsSpan_step s (Op.add w cl r c dir) s1 ds1 hs hF trivial hstep
    have hw := step_words s (Op.add w cl r c dir) hs hstep
    have hin : InGrid s.rows s.cols a b := Grid.inGrid_of_read_eq_some hs.1.2.1 hfill
    have hin1 : InGrid s1.rows s1.cols a b := by
      obtain ⟨-, -, -, e1, e2⟩ := step_wellFormed s (Op.add w cl r c dir) hs
      simp only at hw
      split at hw
      · obtain ⟨sol1, pl1, ds2, hadd, -⟩ := addWord_spec s w cl r c dir hs.1 (by assumption)
        have hsame : s.addWord w cl r c dir = some (s1, ds1) := hstep
        rw [hadd] at hsame
        simp only [Option.some.injEq, Prod.mk.injEq] at hsame
        rw [← hsame.1]
        exact hin
      · rw [hw]; exact hin
    obtain ⟨p, hp⟩ := Grid.read_eq_some_of_inGrid hs1.1.2.1 hin1
    obtain ⟨hiff1, -⟩ := hF1 a b p hp
    obtain ⟨e, he, i, hi, hcell⟩ := (hF a b '_' hfill).1.1 rfl
    have hmem : e ∈ s1.words := by
      simp only at hw
      split at hw
      · rw [hw.1]; exact List.mem_append_left _ he
      · rw [hw]; exact he
    rw [hp, hiff1.2 ⟨e, hmem, i, hi, hcell⟩]

/-- C13 on the fresh 10x10 grid with the calls `sampleCalls`: the fillable cells
are those of `"API"` and `"XYZ"`; the rejected placement covers nothing. -/
theorem fillable_iff_covered_witness :
    Crossword.construct 10 10 = some game0 ∧
    (∃ s ds, game0.run sampleCalls = some (s, ds) ∧
      (∀ a b, InGrid 10 10 a b →
        (s.playerGrid.read a b = some '_' ↔
          ∃ e ∈ s.words, ∃ i, i < e.word.length ∧
            cellOf e.row e.col e.direction i = (a, b)) ∧
        (s.playerGrid.read a b = some '_' ∨ s.playerGrid.read a b = some '#')) ∧
      ∀ (w cl : List Char) (r c : Int) (dir : Char),
        ∃ s1 ds1, s.addWord w cl r c dir = some (s1, ds1) ∧
          ∀ a b, s.playerGrid.read a b = some '_' → s1.playerGrid.read a b = some '_') ∧
    (game0.run sampleCalls).map (fun p => p.1.playerGrid.take 3) =
      some ["#####___##".toList, "#####_####".toList, "#####_####".toList] :=
  ⟨by decide, fillable_iff_covered 10 10 game0 sampleCalls (by decide), by decide⟩

/-- C14 fails as stated for a grid of more than 100 rows: on the 101x1 grid,
after the numbering pass, the rendering's line for row 0 is `" 0|###"` (6
characters) and its line for row 100 is `"100|###"` (7 characters), because
`std::setw(2)` pads the row index to two columns but does not shorten a longer
one. -/
theorem display_rows_differ_beyond_hundred_rows :
    ((Crossword.construct 101 1).bind
        (fun s0 => (s0.run [Op.prepare]).bind
          (fun p => p.1.displayPlayerGridWithNumbers))).map
        (fun lines => (lines[3]?, lines[103]?,
          (lines[3]?).map List.length, (lines[103]?).map List.length)) =
      some (some " 0|###".toList, some "100|###".toList, some 6, some 7) := by
  set_option maxRecDepth 100000 in decide

/-- C14, amended. In a state reached from a freshly constructed grid by any
call sequence, every display cell has exactly 3 characters and is `"###"`,
`" _ "` or the label of a recorded word's number.  `displayPlayerGridWithNumbers`
returns three heading lines, one line per grid row and an empty line; the line
of row `i` has `max 2 (digits of i) + 1 + 3 * cols` characters, so all row
lines have the same width `3 + 3 * cols` when the grid has at most 100 rows. -/
theorem display_cells_three_chars (rows cols : Int) (s0 : Crossword) (ops : List Op)
    (h0 : Crossword.construct rows cols = some s0) :
    ∃ s ds, s0.run ops = some (s, ds) ∧
      (∀ a b, InGrid rows cols a b →
        ∃ cell, s.numberedPlayerGrid.read a b = some cell ∧ cell.length = 3 ∧
          (cell = ['#', '#', '#'] ∨ cell = [' ', '_', ' '] ∨
            ∃ e ∈ s.words, cell = numberLabel e.number)) ∧
      ∃ top lines, s.displayPlayerGridWithNumbers = some (top ++ lines ++ [[]]) ∧
        top.length = 3 ∧ lines.length = rows.toNat ∧
        (∀ (i : Nat) (h : i < lines.length),
          (lines[i]).length = max 2 (to_string (i : Int)).length + 1 + 3 * cols.toNat) ∧
        (rows ≤ 100 → ∀ (i : Nat) (h : i < lines.length),
          (lines[i]).length = 3 + 3 * cols.toNat) := by
  obtain ⟨hwf, hr0, hc0⟩ := wellFormed_construct h0
  have hP0 : s0.CellsAreLabels ∧ s0.Numbered := by
    obtain ⟨-, -, rfl⟩ := construct_inv h0
    refine ⟨?_, rfl, fun i h => absurd h (by simp)⟩
    intro a b cell hcell
    exact Or.inl (read_replicate hcell)
  obtain ⟨s, ds, hrun, hs, ⟨hC, hN⟩, hr, hc⟩ :=
    run_invariant (fun t => t.CellsAreLabels ∧ t.Numbered) (fun _ => True)
      (fun t op t1 d ht hP _ hstep =>
        ⟨cellsAreLabels_step t op t1 d ht hP.1 trivial hstep,
         numbered_step t op t1 d ht hP.2 trivial hstep⟩)
      ops s0 (fun _ _ => trivial) hwf hP0
  have hrows : s.rows = rows := by rw [hr, hr0]
  have hcols : s.cols = cols := by rw [hc, hc0]
  have hlen : ∀ a b cell, s.numberedPlayerGrid.read a b = some cell → cell.length = 3 := by
    intro a b cell hcell
    rcases hC a b cell hcell with h | h | ⟨e, he, h⟩
    · rw [h]; rfl
    · rw [h]; rfl
    · obtain ⟨i, hi, rfl⟩ := List.getElem_of_mem he
      have hnum := hN.2 i hi
      have := (numberLabel_eq_specLabel (i + 1)).2
      rw [h, hnum]
      exact_mod_cast this
  refine ⟨s, ds, hrun, ?_, ?_⟩
  · intro a b hin
    have hin1 : InGrid s.rows s.cols a b := by rw [hrows, hcols]; exact hin
    obtain ⟨cell, hcell⟩ := Grid.read_eq_some_of_inGrid hs.1.2.2 hin1
    exact ⟨cell, hcell, hlen a b cell hcell, hC a b cell hcell⟩
  · have hmem : ∀ i ∈ List.range s.rows.toNat, (i : Int) < s.rows := by
      intro i hi
      have := List.mem_range.1 hi
      omega
    obtain ⟨lines, hlines, hll, hk⟩ :=
      displayRows_spec s.rows s.cols s.numberedPlayerGrid hs.1.2.2 hlen
        (List.range s.rows.toNat) hmem
    simp only [List.length_range] at hll
    have hwidth : ∀ (i : Nat) (h : i < lines.length),
        (lines[i]).length = max 2 (to_string (i : Int)).length + 1 + 3 * cols.toNat := by
      intro i h
      have := hk i h (by simp only [List.length_range]; omega)
      simpa only [List.getElem_range, hcols] using this
    refine ⟨["Crossword Puzzle (10x10):".toList,
        "   ".toList ++ (List.range s.cols.toNat).flatMap (fun j => setw 3 (to_string j)),
        "   ".toList ++ (List.range s.cols.toNat).flatMap (fun _ => "---".toList)],
      lines, ?_, ?_, by rw [hll, hrows], hwidth, ?_⟩
    · simp only [Crossword.displayPlayerGridWithNumbers, hlines, Option.bind_eq_bind,
        Option.some_bind]
      rfl
    · rfl
    · intro hsmall i h
      rw [hwidth i h]
      have hi : i < 100 := by
        rw [hll, hrows] at h
        omega
      have := to_string_length_le_two hi
      omega

/-- C14, amended, on the 10x10 grid with the calls of `main`: the ten row lines
have 33 characters each. -/
theorem display_cells_three_chars_witness :
    Crossword.construct 10 10 = some game0 ∧
    (∃ s ds, game0.run mainCalls = some (s, ds) ∧
      (∀ a b, InGrid 10 10 a b →
        ∃ cell, s.numberedPlayerGrid.read a b = some cell ∧ cell.length = 3 ∧
          (cell = ['#', '#', '#'] ∨ cell = [' ', '_', ' '] ∨
            ∃ e ∈ s.words, cell = numberLabel e.number)) ∧
      ∃ top lines, s.displayPlayerGridWithNumbers = some (top ++ lines ++ [[]]) ∧
        top.length = 3 ∧ lines.length = (10 : Int).toNat ∧
        (∀ (i : Nat) (h : i < lines.length),
          (lines[i]).length =
            max 2 (to_string (i : Int)).length + 1 + 3 * (10 : Int).toNat) ∧
        ((10 : Int) ≤ 100 → ∀ (i : Nat) (h : i < lines.length),
          (lines[i]).length = 3 + 3 * (10 : Int).toNat)) ∧
    ((game0.run mainCalls).bind (fun p => p.1.displayPlayerGridWithNumbers)).map
        (fun lines => lines.map List.length) =
      some ([25, 33, 33] ++ List.replicate 10 33 ++ [0]) :=
  ⟨by decide, display_cells_three_chars 10 10 game0 mainCalls (by decide), by decide⟩

/-- C15. In a state reached from a freshly constructed grid by any call
sequence, every entry of the word list starts inside the grid, the grid
accesses at its start cell are in range, and both
`preparePlayerGridWithNumbers` and every further `addWord` call return a
state: no grid access of either method falls outside the grid. -/
theorem recorded_starts_in_bounds (rows cols : Int) (s0 : Crossword) (ops : List Op)
    (h0 : Crossword.construct rows cols = some s0) :
    ∃ s ds, s0.run ops = some (s, ds) ∧
      (∀ e ∈ s.words, 0 ≤ e.row ∧ e.row < rows ∧ 0 ≤ e.col ∧ e.col < cols) ∧
      (∀ e ∈ s.words, ∃ p cell, s.playerGrid.read e.row e.col = some p ∧
        s.numberedPlayerGrid.read e.row e.col = some cell) ∧
      (∃ s1, s.preparePlayerGridWithNumbers = some s1) ∧
      ∀ (w cl : List Char) (r c : Int) (dir : Char),
        ∃ s1 ds1, s.addWord w cl r c dir = some (s1, ds1) := by
  obtain ⟨hwf, hr0, hc0⟩ := wellFormed_construct h0
  obtain ⟨s, ds, hrun, hs, -, hr, hc⟩ :=
    run_invariant (fun _ => True) (fun _ => True) (fun _ _ _ _ _ _ _ _ => trivial) ops s0
      (fun _ _ => trivial) hwf trivial
  have hrows : s.rows = rows := by rw [hr, hr0]
  have hcols : s.cols = cols := by rw [hc, hc0]
  refine ⟨s, ds, hrun, ?_, ?_, ?_, ?_⟩
  · intro e he
    have := hs.2 e he
    rw [hrows, hcols] at this
    exact this
  · intro e he
    obtain ⟨p, hp⟩ := Grid.read_eq_some_of_inGrid hs.1.2.1 (hs.2 e he)
    obtain ⟨cell, hcell⟩ := Grid.read_eq_some_of_inGrid hs.1.2.2 (hs.2 e he)
    exact ⟨p, cell, hp, hcell⟩
  · obtain ⟨n1, hprep, -⟩ := prepare_spec s hs
    exact ⟨_, hprep⟩
  · intro w cl r c dir
    obtain ⟨s1, ds1, hstep, -⟩ := step_wellFormed s (Op.add w cl r c dir) hs
    exact ⟨s1, ds1, hstep⟩

/-- C15 on the fresh 10x10 grid with the calls `sampleCalls`, one of which is a
placement that starts in row 10 and is not recorded. -/
theorem recorded_starts_in_bounds_witness :
    Crossword.construct 10 10 = some game0 ∧
    (∃ s ds, game0.run sampleCalls = some (s, ds) ∧
      (∀ e ∈ s.words, 0 ≤ e.row ∧ e.row < 10 ∧ 0 ≤ e.col ∧ e.col < 10) ∧
      (∀ e ∈ s.words, ∃ p cell, s.playerGrid.read e.row e.col = some p ∧
        s.numberedPlayerGrid.read e.row e.col = some cell) ∧
      (∃ s1, s.preparePlayerGridWithNumbers = some s1) ∧
      ∀ (w cl : List Char) (r c : Int) (dir : Char),
        ∃ s1 ds1, s.addWord w cl r c dir = some (s1, ds1)) ∧
    (game0.run sampleCalls).map (fun p => p.1.words.map (fun e => (e.row, e.col))) =
      some [(0, 5), (0, 5)] :=
  ⟨by decide, recorded_starts_in_bounds 10 10 game0 sampleCalls (by decide), by decide⟩

/-- C16. The eight placements of `main` on the 10x10 grid lie inside the grid
with all their cells and cover pairwise distinct cells; running them and the
numbering pass writes no diagnostic, records the words under the numbers 1..8
in the order written, shows at each of the eight start cells the label of that
word's own number, and leaves exactly 29 fillable cells. -/
theorem main_builds_clean_puzzle :
    Crossword.construct 10 10 = some game0 ∧
    (∀ p ∈ mainCalls.flatMap Op.cells, InGrid 10 10 p.1 p.2) ∧
    (mainCalls.flatMap Op.cells).Nodup ∧
    (game0.run mainCalls).map (fun p => (p.2, p.1.words.map (fun e => (e.word, e.number)))) =
      some ([], [("CPU".toList, 1), ("RAM".toList, 2), ("API".toList, 3), ("BUG".toList, 4),
                 ("GIT".toList, 5), ("LINKER".toList, 6), ("CODE".toList, 7),
                 ("NULL".toList, 8)]) ∧
    (game0.run mainCalls).map
        (fun p => p.1.words.map (fun e => p.1.numberedPlayerGrid.read e.row e.col)) =
      some [some " 1 ".toList, some " 2 ".toList, some " 3 ".toList, some " 4 ".toList,
            some " 5 ".toList, some " 6 ".toList, some " 7 ".toList, some " 8 ".toList] ∧
    (game0.run mainCalls).map (fun p => (p.1.playerGrid.map (List.count '_')).sum) =
      some 29 := by
  refine ⟨by decide, by decide, by decide, by decide, by decide, by decide⟩

/-- C17. On a well-formed state, a non-empty word placed at an in-bounds start
with a direction character that is neither `'A'` nor `'D'`, and that fits
below its start, is written down its column (letter `i` at `(r + i, c)`),
takes the next sequence number and is recorded; after the numbering pass its
start cell shows the label of that number; yet `displayClues` prints exactly
what it printed before the placement: the word is in neither section. -/
theorem other_direction_placed_but_not_listed (s : Crossword) (w cl : List Char) (r c : Int)
    (dir : Char) (hs : s.WellFormed) (hA : dir ≠ 'A') (hD : dir ≠ 'D') (hne : w ≠ [])
    (hstart : InGrid s.rows s.cols r c) (hfit : r + (w.length : Int) ≤ s.rows) :
    ∃ s1 ds s2, s.addWord w cl r c dir = some (s1, ds) ∧
      (∀ (i : Nat) (h : i < w.length),
        s1.solutionGrid.read (r + i) c = some w[i] ∧
        s1.playerGrid.read (r + i) c = some '_') ∧
      s1.currentWordNumber = s.currentWordNumber + 1 ∧
      s1.words = s.words ++ [{ word := w, clue := cl, row := r, col := c, direction := dir,
                               number := s.currentWordNumber + 1 }] ∧
      s1.preparePlayerGridWithNumbers = some s2 ∧
      s2.numberedPlayerGrid.read r c = some (numberLabel (s.currentWordNumber + 1)) ∧
      clueLines 'A' s2.words = clueLines 'A' s.words ∧
      clueLines 'D' s2.words = clueLines 'D' s.words ∧
      s2.displayClues = s.displayClues := by
  obtain ⟨sol1, pl1, ds, hadd, hd1, hd2, hP1, -⟩ := addWord_spec s w cl r c dir hs.1 hstart
  obtain ⟨s1, ds1, hstep, hs1, hr1, hc1⟩ := step_wellFormed s (Op.add w cl r c dir) hs
  have hsame : s.addWord w cl r c dir = some (s1, ds1) := hstep
  rw [hadd] at hsame
  simp only [Option.some.injEq, Prod.mk.injEq] at hsame
  obtain ⟨hs1eq, hdseq⟩ := hsame
  obtain ⟨n1, hprep, -, hcells⟩ := prepare_spec s1 hs1
  have hcell : ∀ i : Nat, cellOf r c dir i = (r + (i : Int), c) := by
    intro i; simp [cellOf, hA]
  have hletters : ∀ (i : Nat) (h : i < w.length),
      s1.solutionGrid.read (r + i) c = some w[i] ∧
      s1.playerGrid.read (r + i) c = some '_' := by
    intro i h
    have hin : InGrid s.rows s.cols (cellOf r c dir i).1 (cellOf r c dir i).2 := by
      rw [hcell i]
      exact ⟨by have := hstart.1; omega, by omega, hstart.2.2.1, hstart.2.2.2⟩
    have := hP1 i w[i] (List.getElem?_eq_getElem h) hin
    rw [hcell i] at this
    rw [← hs1eq]
    exact this
  have hwords : s1.words =
      s.words ++ [{ word := w, clue := cl, row := r, col := c, direction := dir,
                    number := s.currentWordNumber + 1 }] := by rw [← hs1eq]
  have hpos : 0 < w.length := List.length_pos.2 hne
  have hpl : s1.playerGrid.read r c = some '_' := by
    have := (hletters 0 hpos).2
    simpa using this
  have hin1 : InGrid s1.rows s1.cols r c := by rw [hr1, hc1]; exact hstart
  obtain ⟨p, hp, hread⟩ := hcells r c hin1
  rw [hpl] at hp
  simp only [Option.some.injEq] at hp
  subst hp
  have hlast : lastStartingAt s1.words r c =
      some { word := w, clue := cl, row := r, col := c, direction := dir,
             number := s.currentWordNumber + 1 } := by
    rw [hwords]
    exact (lastStartingAt_eq_some_iff _ r c _).2 ⟨s.words, [], by simp, ⟨rfl, rfl⟩, by simp⟩
  have hA2 : clueLines 'A' s1.words = clueLines 'A' s.words := by
    rw [hwords]; exact clueLines_append_other 'A' _ _ hA
  have hD2 : clueLines 'D' s1.words = clueLines 'D' s.words := by
    rw [hwords]; exact clueLines_append_other 'D' _ _ hD
  refine ⟨s1, ds, { s1 with numberedPlayerGrid := n1 }, by rw [hadd, hs1eq], hletters,
    by rw [← hs1eq], hwords, hprep, ?_, hA2, hD2, ?_⟩
  · show n1.read r c = _
    rw [hread, hlast]
    simp [expectedCell]
  · show Crossword.displayClues { s1 with numberedPlayerGrid := n1 } = s.displayClues
    simp only [Crossword.displayClues, hA2, hD2]

/-- C17 for the input `addWord("UP", "Not down", 2, 2, 'X')` on the state that
holds `"API"`: `'U'` and `'P'` go to `(2, 2)` and `(3, 2)`, the word gets number
2, the numbering pass shows `" 2 "` at `(2, 2)`, and the clue list still has only
the line of `"API"`. -/
theorem other_direction_placed_but_not_listed_witness :
    (gameApi.WellFormed ∧ 'X' ≠ 'A' ∧ 'X' ≠ 'D' ∧ "UP".toList ≠ [] ∧
      InGrid gameApi.rows gameApi.cols 2 2 ∧
      (2 : Int) + (("UP".toList.length : Nat) : Int) ≤ gameApi.rows) ∧
    (∃ s1 ds s2, gameApi.addWord "UP".toList "Not down".toList 2 2 'X' = some (s1, ds) ∧
      (∀ (i : Nat) (h : i < "UP".toList.length),
        s1.solutionGrid.read (2 + i) 2 = some ("UP".toList[i]) ∧
        s1.playerGrid.read (2 + i) 2 = some '_') ∧
      s1.currentWordNumber = gameApi.currentWordNumber + 1 ∧
      s1.words = gameApi.words ++ [{ word := "UP".toList, clue := "Not down".toList, row := 2,
                                     col := 2, direction := 'X',
                                     number := gameApi.currentWordNumber + 1 }] ∧
      s1.preparePlayerGridWithNumbers = some s2 ∧
      s2.numberedPlayerGrid.read 2 2 = some (numberLabel (gameApi.currentWordNumber + 1)) ∧
      clueLines 'A' s2.words = clueLines 'A' gameApi.words ∧
      clueLines 'D' s2.words = clueLines 'D' gameApi.words ∧
      s2.displayClues = gameApi.displayClues) ∧
    ((gameApi.addWord "UP".toList "Not down".toList 2 2 'X').bind
        (fun p => p.1.preparePlayerGridWithNumbers)).map
        (fun s2 => (s2.solutionGrid.read 2 2, s2.solutionGrid.read 3 2,
          s2.words.map WordInfo.number, s2.numberedPlayerGrid.read 2 2)) =
      some (some 'U', some 'P', [1, 2], some " 2 ".toList) ∧
    ((gameApi.addWord "UP".toList "Not down".toList 2 2 'X').bind
        (fun p => p.1.preparePlayerGridWithNumbers)).map Crossword.displayClues =
      some ["Clues:".toList, "------".toList, "Across:".toList, [], "Down:".toList,
            " 1. Interface for software interaction (3 letters)".toList, []] :=
  ⟨⟨by decide, by decide, by decide, by decide, by decide, by decide⟩,
   other_direction_placed_but_not_listed gameApi "UP".toList "Not down".toList 2 2 'X'
     (by decide) (by decide) (by decide) (by decide) (by decide) (by decide),
   by decide, by decide⟩

/-- C18. The blocked marker is accepted as a word character: on the fresh
10x10 grid, `addWord("A#B", "", 0, 0, 'A')` writes no diagnostic and leaves
cell `(0, 1)` fillable in the player grid while the solution grid holds `'#'`
there; the later `addWord("XY", "", 0, 1, 'D')`, which crosses that cell with
the letter `'X'`, writes no conflict diagnostic and overwrites the cell. -/
theorem blocked_marker_accepted_as_letter :
    (game0.addWord "A#B".toList [] 0 0 'A').map
        (fun p => (p.2, p.1.playerGrid.read 0 1, p.1.solutionGrid.read 0 1)) =
      some ([], some '_', some '#') ∧
    ((game0.addWord "A#B".toList [] 0 0 'A').bind
        (fun p => p.1.addWord "XY".toList [] 0 1 'D')).map
        (fun q => (q.2, q.2.countP Diag.isConflict, q.1.solutionGrid.read 0 1,
          q.1.playerGrid.read 0 1)) =
      some ([], 0, some 'X', some '_') := by
  refine ⟨by decide, by decide⟩

end CrosswordPuzzle
